import Mathlib

/-!
Verification development for the SIH_25091 timetable core
(`src/tlinker/solver.py` and `src/tlinker/table_utils.py`).

The embedding models:
* JSON cell values (`JVal`) together with the `json.dumps` / `json.loads`
  pair used by the JSON-column coercion helpers, restricted to the value
  shapes that can live in a table cell (null, bool, int, string, array,
  object).  Floating point numbers are outside the model: the repository
  data never stores float cells in JSON columns, and the decoder of the
  model rejects a numeric literal with a fraction or exponent where
  Python would produce a float.  Python strings may also hold lone
  surrogates, which a Lean `Char` cannot; the decoder of the model
  rejects those escapes.
* `parse_json_columns` / `serialize_json_columns` over a column-oriented
  table (`DF`), matching the pandas code (copy, per declared column,
  cell-wise transform).
* the scheduling engine `solve_timetable` with its sequential placement
  pass, including the exact order in which the Python code can raise
  (`ZeroDivisionError` on `slots_per_day == 0`, `IndexError` from
  `rooms_df.iloc[0]` / boolean-indexing `.iloc[0]` on faculty, and
  `IndexError` from `days[day_idx]`), and the f-string clock-time
  formatting with Python's round-half-to-even float rendering.
-/

namespace TLinker

/-- A JSON-compatible Python cell value: `None`, `bool`, `int`, `str`,
`list`, `dict` (keys are strings, as produced by `json.loads`). -/
inductive JVal where
  | jnull : JVal
  | jbool : Bool → JVal
  | jint : Int → JVal
  | jstr : String → JVal
  | jarr : List JVal → JVal
  | jobj : List (String × JVal) → JVal

/-- Decimal digit to character, `0 ↦ '0'`, …, `9 ↦ '9'`. -/
def digitChar (n : Nat) : Char := Char.ofNat (48 + n)

/-- Decimal digits of `n`, most significant first (fuelled; the fuel is
always instantiated with `n + 1`, which is enough). -/
def natCharsAux : Nat → Nat → List Char
  | 0, _ => []
  | fuel + 1, n =>
    if n < 10 then [digitChar n]
    else natCharsAux fuel (n / 10) ++ [digitChar (n % 10)]

/-- Decimal representation of a natural number, as `str` in Python. -/
def natChars (n : Nat) : List Char := natCharsAux (n + 1) n

/-- Decimal representation of a Python `int`. -/
def intChars (n : Int) : List Char :=
  if n < 0 then '-' :: natChars n.natAbs else natChars n.toNat

/-- Hexadecimal digit character (lowercase, as `format(n, '04x')`). -/
def hexDigitChar (n : Nat) : Char :=
  if n < 10 then Char.ofNat (48 + n) else Char.ofNat (87 + n)

/-- Four lowercase hex digits of `n < 0x10000`, as in a `\uXXXX` escape. -/
def hex4 (n : Nat) : List Char :=
  [hexDigitChar (n / 4096 % 16), hexDigitChar (n / 256 % 16),
   hexDigitChar (n / 16 % 16), hexDigitChar (n % 16)]

/-- The left-brace and right-brace characters (written by code point). -/
def lbrace : Char := Char.ofNat 123

def rbrace : Char := Char.ofNat 125

/-- `json.dumps` escaping of one character with `ensure_ascii=True`:
quote, backslash and the five short control escapes get two-character
escapes, other control and non-ASCII characters get `\uXXXX` (with a
surrogate pair beyond the BMP), printable ASCII passes through. -/
def escapeChar (c : Char) : List Char :=
  if c = '"' then ['\\', '"']
  else if c = '\\' then ['\\', '\\']
  else if c = '\n' then ['\\', 'n']
  else if c = '\r' then ['\\', 'r']
  else if c = '\t' then ['\\', 't']
  else if c.toNat = 8 then ['\\', 'b']
  else if c.toNat = 12 then ['\\', 'f']
  else if 32 ≤ c.toNat ∧ c.toNat ≤ 126 then [c]
  else if c.toNat ≤ 65535 then '\\' :: 'u' :: hex4 c.toNat
  else
    ('\\' :: 'u' :: hex4 (55296 + (c.toNat - 65536) / 1024)) ++
    ('\\' :: 'u' :: hex4 (56320 + (c.toNat - 65536) % 1024))

/-- `json.dumps` escaping of a whole string body. -/
def escapeStr : List Char → List Char
  | [] => []
  | c :: cs => escapeChar c ++ escapeStr cs

mutual

/-- Characters of `json.dumps(v)` with the default separators
`(', ', ': ')` and `ensure_ascii=True`. -/
def dumpsChars : JVal → List Char
  | .jnull => ['n', 'u', 'l', 'l']
  | .jbool true => ['t', 'r', 'u', 'e']
  | .jbool false => ['f', 'a', 'l', 's', 'e']
  | .jint n => intChars n
  | .jstr s => '"' :: (escapeStr s.data ++ ['"'])
  | .jarr [] => ['[', ']']
  | .jarr (x :: xs) => '[' :: (dumpsChars x ++ dumpsArr xs ++ [']'])
  | .jobj [] => [lbrace, rbrace]
  | .jobj ((k, v) :: kvs) =>
    lbrace :: ('"' :: (escapeStr k.data ++ ['"', ':', ' ']) ++
      dumpsChars v ++ dumpsObj kvs ++ [rbrace])

/-- Remaining array items: `", " item` for each. -/
def dumpsArr : List JVal → List Char
  | [] => []
  | x :: xs => ',' :: ' ' :: (dumpsChars x ++ dumpsArr xs)

/-- Remaining object members: `", " key ": " value` for each. -/
def dumpsObj : List (String × JVal) → List Char
  | [] => []
  | (k, v) :: kvs =>
    ',' :: ' ' :: ('"' :: (escapeStr k.data ++ ['"', ':', ' ']) ++
      dumpsChars v ++ dumpsObj kvs)

end

/-- `json.dumps(v)` as a `String`. -/
def dumps (v : JVal) : String := String.mk (dumpsChars v)

/-! ### The decoder (`json.loads`)

A fuelled recursive-descent scanner following the structure of CPython's
pure-Python `json.scanner` / `json.decoder`: the same whitespace set, the
same dispatch on the first character, surrogate-pair joining in string
escapes, and an "Extra data" check on trailing input.  Two deliberate
deviations, noted in the file header: numeric literals with a fraction or
an exponent (Python floats) and lone-surrogate escapes (unrepresentable
in a Lean `Char`) are rejected with an error instead of being decoded. -/

/-- JSON whitespace, `json.decoder.WHITESPACE_STR`. -/
def isJsonWs (c : Char) : Bool :=
  c = ' ' ∨ c = '\t' ∨ c = '\n' ∨ c = '\r'

/-- Skip leading JSON whitespace. -/
def skipWs : List Char → List Char
  | [] => []
  | c :: cs => if isJsonWs c then skipWs cs else c :: cs

/-- Value of one hexadecimal digit (both cases, as `int(s, 16)`). -/
def hexDigitVal (c : Char) : Option Nat :=
  if 48 ≤ c.toNat ∧ c.toNat ≤ 57 then some (c.toNat - 48)
  else if 97 ≤ c.toNat ∧ c.toNat ≤ 102 then some (c.toNat - 87)
  else if 65 ≤ c.toNat ∧ c.toNat ≤ 70 then some (c.toNat - 55)
  else none

/-- Read the four hex digits of a `\uXXXX` escape. -/
def parseHex4 : List Char → Except String (Nat × List Char)
  | c1 :: c2 :: c3 :: c4 :: rest =>
    match hexDigitVal c1, hexDigitVal c2, hexDigitVal c3, hexDigitVal c4 with
    | some a, some b, some c, some d => .ok (((a * 16 + b) * 16 + c) * 16 + d, rest)
    | _, _, _, _ => .error "Invalid \\uXXXX escape"
  | _ => .error "Invalid \\uXXXX escape"

/-- Scan a string body up to the closing quote (`json.decoder.py_scanstring`
with `strict=True`): unescaped control characters are rejected, `\uXXXX`
escapes are decoded with surrogate-pair joining. -/
def scanString : Nat → List Char → Except String (List Char × List Char)
  | 0, _ => .error "fuel exhausted"
  | _, [] => .error "Unterminated string starting at"
  | fuel + 1, c :: rest =>
    if c = '"' then .ok ([], rest)
    else if c = '\\' then
      match rest with
      | [] => .error "Unterminated string starting at"
      | e :: rest2 =>
        if e = 'u' then
          match parseHex4 rest2 with
          | .error msg => .error msg
          | .ok (n, rest3) =>
            if 55296 ≤ n ∧ n ≤ 56319 then
              match rest3 with
              | b1 :: b2 :: rest4 =>
                if b1 = '\\' ∧ b2 = 'u' then
                  match parseHex4 rest4 with
                  | .error msg => .error msg
                  | .ok (n2, rest5) =>
                    if 56320 ≤ n2 ∧ n2 ≤ 57343 then
                      match scanString fuel rest5 with
                      | .error msg => .error msg
                      | .ok (cs, r) =>
                        .ok (Char.ofNat (65536 + (n - 55296) * 1024 + (n2 - 56320)) :: cs, r)
                    else .error "lone surrogate escape is outside the model"
                else .error "lone surrogate escape is outside the model"
              | _ => .error "lone surrogate escape is outside the model"
            else if 56320 ≤ n ∧ n ≤ 57343 then
              .error "lone surrogate escape is outside the model"
            else
              match scanString fuel rest3 with
              | .error msg => .error msg
              | .ok (cs, r) => .ok (Char.ofNat n :: cs, r)
        else
          let dec : Except String Char :=
            if e = '"' then .ok '"'
            else if e = '\\' then .ok '\\'
            else if e = '/' then .ok '/'
            else if e = 'b' then .ok (Char.ofNat 8)
            else if e = 'f' then .ok (Char.ofNat 12)
            else if e = 'n' then .ok '\n'
            else if e = 'r' then .ok '\r'
            else if e = 't' then .ok '\t'
            else .error "Invalid \\escape"
          match dec with
          | .error msg => .error msg
          | .ok d =>
            match scanString fuel rest2 with
            | .error msg => .error msg
            | .ok (cs, r) => .ok (d :: cs, r)
    else if c.toNat < 32 then .error "Invalid control character"
    else
      match scanString fuel rest with
      | .error msg => .error msg
      | .ok (cs, r) => .ok (c :: cs, r)

/-- Is the character one of `0123456789` (the decoder's number regex). -/
def isDigitChar (c : Char) : Bool :=
  48 ≤ c.toNat ∧ c.toNat ≤ 57

/-- Take the maximal run of decimal digits. -/
def takeDigits : List Char → List Char × List Char
  | [] => ([], [])
  | c :: rest =>
    if isDigitChar c then
      let (ds, r) := takeDigits rest
      (c :: ds, r)
    else ([], c :: rest)

/-- Accumulate decimal digits into a natural number. -/
def digitsToNat (acc : Nat) : List Char → Nat
  | [] => acc
  | c :: rest => digitsToNat (acc * 10 + (c.toNat - 48)) rest

mutual

/-- Scan one JSON value (`json.scanner.py_make_scanner`'s `_scan_once`):
dispatch on the first character; literals `null` / `true` / `false`;
strings, arrays, objects; integer literals (a fraction or exponent would
be a Python float, which is outside the model). -/
def parseVal : Nat → List Char → Except String (JVal × List Char)
  | 0, _ => .error "fuel exhausted"
  | fuel + 1, s =>
    match s with
    | [] => .error "Expecting value"
    | c :: rest =>
      if c = '"' then
        match scanString (rest.length + 1) rest with
        | .error msg => .error msg
        | .ok (cs, r) => .ok (.jstr (String.mk cs), r)
      else if c = '[' then
        match skipWs rest with
        | [] => .error "Expecting value"
        | c2 :: r2 =>
          if c2 = ']' then .ok (.jarr [], r2)
          else
            match parseVal fuel (c2 :: r2) with
            | .error msg => .error msg
            | .ok (v, r1) =>
              match parseArrTail fuel r1 with
              | .error msg => .error msg
              | .ok (vs, r3) => .ok (.jarr (v :: vs), r3)
      else if c = lbrace then
        match skipWs rest with
        | c2 :: r2 =>
          if c2 = rbrace then .ok (.jobj [], r2)
          else if c2 = '"' then
            match scanString (r2.length + 1) r2 with
            | .error msg => .error msg
            | .ok (k, r3) =>
              match skipWs r3 with
              | c3 :: r4 =>
                if c3 = ':' then
                  match parseVal fuel (skipWs r4) with
                  | .error msg => .error msg
                  | .ok (v, r5) =>
                    match parseObjTail fuel r5 with
                    | .error msg => .error msg
                    | .ok (kvs, r6) => .ok (.jobj ((String.mk k, v) :: kvs), r6)
                else .error "Expecting ':' delimiter"
              | [] => .error "Expecting ':' delimiter"
          else .error "Expecting property name enclosed in double quotes"
        | [] => .error "Expecting property name enclosed in double quotes"
      else if c = 'n' then
        match rest with
        | 'u' :: 'l' :: 'l' :: r => .ok (.jnull, r)
        | _ => .error "Expecting value"
      else if c = 't' then
        match rest with
        | 'r' :: 'u' :: 'e' :: r => .ok (.jbool true, r)
        | _ => .error "Expecting value"
      else if c = 'f' then
        match rest with
        | 'a' :: 'l' :: 's' :: 'e' :: r => .ok (.jbool false, r)
        | _ => .error "Expecting value"
      else if c = '-' ∨ isDigitChar c = true then
        let (neg, s1) : Bool × List Char :=
          if c = '-' then (true, rest) else (false, c :: rest)
        match takeDigits s1 with
        | ([], _) => .error "Expecting value"
        | (ds, s2) =>
          match s2 with
          | c2 :: _ =>
            if c2 = '.' ∨ c2 = 'e' ∨ c2 = 'E' then
              .error "float literal is outside the model"
            else
              .ok (.jint (if neg then -(digitsToNat 0 ds : Int) else (digitsToNat 0 ds : Int)), s2)
          | [] =>
            .ok (.jint (if neg then -(digitsToNat 0 ds : Int) else (digitsToNat 0 ds : Int)), [])
      else .error "Expecting value"

/-- After one array element: `, element`* `]`. -/
def parseArrTail : Nat → List Char → Except String (List JVal × List Char)
  | 0, _ => .error "fuel exhausted"
  | fuel + 1, s =>
    match skipWs s with
    | c :: r =>
      if c = ']' then .ok ([], r)
      else if c = ',' then
        match parseVal fuel (skipWs r) with
        | .error msg => .error msg
        | .ok (v, r1) =>
          match parseArrTail fuel r1 with
          | .error msg => .error msg
          | .ok (vs, r2) => .ok (v :: vs, r2)
      else .error "Expecting ',' delimiter"
    | [] => .error "Expecting ',' delimiter"

/-- After one object member: `, "key" : value`* and the closing brace. -/
def parseObjTail : Nat → List Char → Except String (List (String × JVal) × List Char)
  | 0, _ => .error "fuel exhausted"
  | fuel + 1, s =>
    match skipWs s with
    | c :: r =>
      if c = rbrace then .ok ([], r)
      else if c = ',' then
        match skipWs r with
        | c2 :: r2 =>
          if c2 = '"' then
            match scanString (r2.length + 1) r2 with
            | .error msg => .error msg
            | .ok (k, r3) =>
              match skipWs r3 with
              | c3 :: r4 =>
                if c3 = ':' then
                  match parseVal fuel (skipWs r4) with
                  | .error msg => .error msg
                  | .ok (v, r5) =>
                    match parseObjTail fuel r5 with
                    | .error msg => .error msg
                    | .ok (kvs, r6) => .ok ((String.mk k, v) :: kvs, r6)
                else .error "Expecting ':' delimiter"
              | [] => .error "Expecting ':' delimiter"
          else .error "Expecting property name enclosed in double quotes"
        | [] => .error "Expecting property name enclosed in double quotes"
      else .error "Expecting ',' delimiter"
    | [] => .error "Expecting ',' delimiter"

end

/-- `json.loads`: skip leading whitespace, scan one value, and require
only whitespace to remain ("Extra data" otherwise). -/
def loads (s : String) : Except String JVal :=
  let t := skipWs s.data
  match parseVal (t.length + 1) t with
  | .error msg => .error msg
  | .ok (v, r) =>
    match skipWs r with
    | [] => .ok v
    | _ => .error "Extra data"

/-! ### `table_utils.parse_json_columns` / `serialize_json_columns`

A pandas DataFrame is modelled column-wise: an ordered list of
`(column name, cells)` pairs.  `df.copy()` needs no counterpart in a
pure model; `df[col] = df[col].apply(f)` is an update of the named
column. -/

/-- Python `x.startswith('[')`: non-empty string whose first character
is the list-open delimiter. -/
def startsWithBracket (s : String) : Bool :=
  match s.data with
  | c :: _ => c = '['
  | [] => false

/-- One cell of `parse_json_columns`:
`json.loads(x) if isinstance(x, str) and x.startswith('[') else x`.
A `json.JSONDecodeError` propagates as `.error`. -/
def parseCell (x : JVal) : Except String JVal :=
  match x with
  | .jstr s => if startsWithBracket s then loads s else .ok x
  | _ => .ok x

/-- One cell of `serialize_json_columns`:
`json.dumps(x) if isinstance(x, (list, dict)) else x`. -/
def serializeCell (x : JVal) : JVal :=
  match x with
  | .jarr _ => .jstr (dumps x)
  | .jobj _ => .jstr (dumps x)
  | _ => x

/-- A column-oriented table: ordered `(name, cells)` pairs. -/
abbrev DF := List (String × List JVal)

/-- `col in df.columns` / `df[col]`: the first column with this name. -/
def getCol (df : DF) (col : String) : Option (List JVal) :=
  (df.find? (fun e => e.1 == col)).map (fun e => e.2)

/-- `df[col] = cells`: replace the cells of every column with this name. -/
def updateCol (df : DF) (col : String) (cells : List JVal) : DF :=
  df.map (fun e => if e.1 == col then (e.1, cells) else e)

/-- `table_utils.parse_json_columns`: copy, then for each declared JSON
column present in the frame, decode each cell (errors propagate). -/
def parse_json_columns (df : DF) (cols : List String) : Except String DF :=
  match cols with
  | [] => .ok df
  | col :: rest =>
    match getCol df col with
    | some cells =>
      match cells.mapM parseCell with
      | .error msg => .error msg
      | .ok cells2 => parse_json_columns (updateCol df col cells2) rest
    | none => parse_json_columns df rest

/-- `table_utils.serialize_json_columns`: copy, then for each declared
JSON column present in the frame, encode each list/dict cell. -/
def serialize_json_columns (df : DF) (cols : List String) : DF :=
  match cols with
  | [] => df
  | col :: rest =>
    match getCol df col with
    | some cells => serialize_json_columns (updateCol df col (cells.map serializeCell)) rest
    | none => serialize_json_columns df rest

/-! ### The scheduling engine (`solver.solve_timetable`)

Records keep the source column names (`section` and `end` are Lean
keywords, written `section_` / `end_`; `type` is kept).  The unused
schema fields that the engine never reads (availability windows, skills,
hour splits, …) are elided; `duration_slots` and `slots_per_day` are
non-negative counts, modelled as `Nat`.  `students_df` is accepted and
never read by the Python engine, so it has no counterpart here. -/

/-- One row of `courses_df` (the fields the engine reads). -/
structure Course where
  code : String
  name : String
  program : String
  section_ : String
  duration_slots : Nat
  room_type : String
  faculty_pool : List Int
deriving DecidableEq

/-- One row of `rooms_df`. -/
structure Room where
  id : Int
  name : String
  type : String
  capacity : Int
deriving DecidableEq

/-- One row of `faculty_df`. -/
structure Faculty where
  id : Int
  name : String
  max_load : Int
deriving DecidableEq

/-- The constraint set: ordered day names and slots per day. -/
structure Constraints where
  days : List String
  slots_per_day : Nat
deriving DecidableEq

/-- One row of `selections_df`. -/
structure Selection where
  student_id : Int
  course_code : String
  section_ : String
  faculty_id : Option Int
deriving DecidableEq

/-- One entry of `scheduled_courses`: a request to place one course. -/
structure Request where
  student_id : Option Int
  course_code : String
  section_ : String
  faculty_id : Option Int
  course : Course
deriving DecidableEq

/-- One output row (`solution_data` entry). -/
structure Session where
  program : String
  section_ : String
  course : String
  faculty : String
  room : String
  day : String
  start : Nat
  end_ : Int
  start_time : String
  end_time : String
deriving DecidableEq

/-- `course_map[code]`: the dict comprehension keeps the **last** row
with a given code, so lookup finds the last occurrence. -/
def courseLookup (courses : List Course) (code : String) : Option Course :=
  courses.reverse.find? (fun c => c.code == code)

/-- The request built from one selection, when its course code is in
the course map (`None` when the selection is silently dropped). -/
def selReq (courses : List Course) (s : Selection) : Option Request :=
  (courseLookup courses s.course_code).map (fun c =>
    ⟨some s.student_id, s.course_code, s.section_, s.faculty_id, c⟩)

/-- `scheduled_courses` construction: explicit non-empty selections are
filtered through the course map (unknown codes are dropped silently);
otherwise one request per catalog course. -/
def buildRequests (courses : List Course) (selections : Option (List Selection)) : List Request :=
  match selections with
  | some sels =>
    if sels.isEmpty then
      courses.map (fun c => ⟨none, c.code, c.section_, none, c⟩)
    else
      sels.filterMap (selReq courses)
  | none => courses.map (fun c => ⟨none, c.code, c.section_, none, c⟩)

/-- Room resolution (solver.py lines 86–91): first room of the required
type if any, else `rooms_df.iloc[0]` — an `IndexError` when the room
collection is empty. -/
def resolveRoom (rooms : List Room) (room_type : String) : Except String Room :=
  match rooms.find? (fun r => r.type == room_type) with
  | some r => .ok r
  | none =>
    match rooms.head? with
    | some r => .ok r
    | none => .error "IndexError: single positional indexer is out-of-bounds"

/-- Faculty resolution (solver.py lines 93–99): first pool entry looked
up by boolean indexing (`IndexError` when no row matches), else
`faculty_df.iloc[0]` (`IndexError` when the collection is empty). -/
def resolveFaculty (faculty : List Faculty) (pool : List Int) : Except String Faculty :=
  match pool with
  | fid :: _ =>
    match faculty.find? (fun f => f.id == fid) with
    | some f => .ok f
    | none => .error "IndexError: single positional indexer is out-of-bounds"
  | [] =>
    match faculty.head? with
    | some f => .ok f
    | none => .error "IndexError: single positional indexer is out-of-bounds"

/-- Python `f"{x:02.0f}"` applied to the exact half-integer
`x = (16 + slot) / 2 = 8 + slot * 0.5`: float rendering with precision 0
rounds half to even (banker's rounding). -/
def formatHour (x2 : Nat) : Nat :=
  if x2 % 2 = 0 then x2 / 2
  else if (x2 / 2) % 2 = 0 then x2 / 2
  else x2 / 2 + 1

/-- Two-digit zero padding (the `02` width of the format specs). -/
def pad2 (n : Nat) : String :=
  if n < 10 then "0" ++ toString n else toString n

/-- The emitted clock-time string for a slot index:
`f"{8 + slot * 0.5:02.0f}:{int((slot * 0.5) % 1 * 60):02d}"`.
`slot * 0.5` is exact in binary floating point, so the minute part is
exactly 0 or 30 and the hour part is the round-half-even rendering of
`8 + slot / 2`. -/
def timeStr (slot : Nat) : String :=
  pad2 (formatHour (16 + slot)) ++ ":" ++ pad2 (if slot % 2 = 0 then 0 else 30)

/-- One iteration of the placement loop (solver.py lines 74–119), in the
order the Python code can raise: the divisions (`ZeroDivisionError` when
`slots_per_day == 0`), room resolution, faculty resolution, then
`days[day_idx]` inside the emitted dict.  Returns the emitted session
and the advanced counter. -/
def scheduleStep (cons : Constraints) (rooms : List Room) (faculty : List Faculty)
    (current_slot : Nat) (req : Request) : Except String (Session × Nat) :=
  if cons.slots_per_day = 0 then
    .error "ZeroDivisionError: integer division or modulo by zero"
  else
    let day_idx0 := current_slot / cons.slots_per_day
    let slot_in_day := current_slot % cons.slots_per_day
    let day_idx := if cons.days.length ≤ day_idx0 then 0 else day_idx0
    let cur := if cons.days.length ≤ day_idx0 then slot_in_day else current_slot
    match resolveRoom rooms req.course.room_type with
    | .error msg => .error msg
    | .ok room =>
      match resolveFaculty faculty req.course.faculty_pool with
      | .error msg => .error msg
      | .ok fac =>
        let duration := req.course.duration_slots
        let end_slot : Int := (cur : Int) + (duration : Int) - 1
        match cons.days.get? day_idx with
        | none => .error "IndexError: list index out of range"
        | some dayName =>
          .ok ({ program := req.course.program
                 section_ := req.section_
                 course := req.course.name
                 faculty := fac.name
                 room := room.name
                 day := dayName
                 start := slot_in_day
                 end_ := end_slot % (cons.slots_per_day : Int)
                 start_time := timeStr slot_in_day
                 end_time := timeStr (end_slot % (cons.slots_per_day : Int)).toNat },
               cur + duration + 1)

/-- The placement loop over the whole request list; an exception on any
request aborts the run (no partial result is returned). -/
def runSchedule (cons : Constraints) (rooms : List Room) (faculty : List Faculty) :
    Nat → List Request → Except String (List Session)
  | _, [] => .ok []
  | cur, req :: reqs =>
    match scheduleStep cons rooms faculty cur req with
    | .error msg => .error msg
    | .ok (sess, cur2) =>
      match runSchedule cons rooms faculty cur2 reqs with
      | .error msg => .error msg
      | .ok rest => .ok (sess :: rest)

/-- `solver.solve_timetable` (the unused `students_df` parameter is
dropped): build the request list, then run the sequential pass with the
shared counter starting at 0. -/
def solve_timetable (courses : List Course) (rooms : List Room) (faculty : List Faculty)
    (cons : Constraints) (selections : Option (List Selection)) : Except String (List Session) :=
  runSchedule cons rooms faculty 0 (buildRequests courses selections)

/-! ### Concrete scenario data (shared by several witnesses) -/

/-- Course "A" of the §8 scenario: duration 2 slots, requires a "Lab". -/
def courseA : Course :=
  { code := "A", name := "Course A", program := "P", section_ := "A",
    duration_slots := 2, room_type := "Lab", faculty_pool := [] }

/-- Course "B" of the §8 scenario. -/
def courseB : Course :=
  { code := "B", name := "Course B", program := "P", section_ := "A",
    duration_slots := 2, room_type := "Lab", faculty_pool := [] }

/-- The one room of the scenario, of the required type. -/
def roomLab : Room := { id := 1, name := "Lab 1", type := "Lab", capacity := 30 }

/-- The one faculty record of the scenario. -/
def facX : Faculty := { id := 1, name := "Dr. X", max_load := 10 }

/-- 2 days × 4 slots per day. -/
def consC1 : Constraints := { days := ["Mon", "Tue"], slots_per_day := 4 }

/-- Two selections naming the known courses A and B. -/
def selsC1 : List Selection :=
  [{ student_id := 1, course_code := "A", section_ := "A", faculty_id := none },
   { student_id := 1, course_code := "B", section_ := "A", faculty_id := none }]

/-- 1 day × 2 slots, used by the C5 witness. -/
def consW5 : Constraints := { days := ["Mon"], slots_per_day := 2 }

/-- The request of the C5 witness. -/
def reqW5 : Request :=
  { student_id := none, course_code := "A", section_ := "A", faculty_id := none,
    course := courseA }

/-- The session that the wrapped step of the C5 witness emits. -/
def sessW5 : Session :=
  { program := "P", section_ := "A", course := "Course A", faculty := "Dr. X",
    room := "Lab 1", day := "Mon", start := 0, end_ := 1,
    start_time := "08:00", end_time := "08:30" }

/-- The projection of a selection that the engine's output can depend
on: its course code and section label. -/
def selProj (s : Selection) : String × String := (s.course_code, s.section_)

/-- A two-column table used by the C8 and C3 witnesses. -/
def dfW : DF :=
  [("faculty_pool", [JVal.jstr "[1, 2]", JVal.jstr "[]"]),
   ("name", [JVal.jstr "Dr. A", JVal.jstr "Dr. B"])]

/-- The JSON-parsed form of the witness table. -/
def dfWparsed : DF :=
  [("faculty_pool", [JVal.jarr [JVal.jint 1, JVal.jint 2], JVal.jarr []]),
   ("name", [JVal.jstr "Dr. A", JVal.jstr "Dr. B"])]

/-! ### Fuel weights for the decoder proofs

An upper bound on the fuel a `parseVal` call tree needs: each recursive
layer consumes one unit, and sibling calls share the same decremented
fuel, so the bound is max-shaped. -/

mutual

/-- Fuel bound for scanning one value. -/
def jweight : JVal → Nat
  | .jnull => 1
  | .jbool _ => 1
  | .jint _ => 1
  | .jstr _ => 1
  | .jarr [] => 1
  | .jarr (x :: xs) => 1 + max (jweight x) (wArr xs)
  | .jobj [] => 1
  | .jobj ((_, v) :: kvs) => 1 + max (jweight v) (wObj kvs)

/-- Fuel bound for scanning an array tail. -/
def wArr : List JVal → Nat
  | [] => 1
  | x :: xs => 1 + max (jweight x) (wArr xs)

/-- Fuel bound for scanning an object tail. -/
def wObj : List (String × JVal) → Nat
  | [] => 1
  | (_, v) :: kvs => 1 + max (jweight v) (wObj kvs)

end

/-- A residual input that cannot be mistaken for more digits of a
numeric literal. -/
def okRest (rest : List Char) : Prop :=
  ∀ c, rest.head? = some c →
    isDigitChar c = false ∧ c ≠ '.' ∧ c ≠ 'e' ∧ c ≠ 'E'

/-! ### Shared solver lemmas -/

/-- Inversion of one successful placement step: the divisor is nonzero,
room/faculty/day resolution succeeded, and the emitted session and the
advanced counter are exactly the ones the source computes. -/
theorem scheduleStep_ok {cons : Constraints} {rooms : List Room} {faculty : List Faculty}
    {cur : Nat} {req : Request} {sess : Session} {cur2 : Nat}
    (h : scheduleStep cons rooms faculty cur req = .ok (sess, cur2)) :
    cons.slots_per_day ≠ 0 ∧
    ∃ room fac dayName,
      resolveRoom rooms req.course.room_type = .ok room ∧
      resolveFaculty faculty req.course.faculty_pool = .ok fac ∧
      cons.days.get? (if cons.days.length ≤ cur / cons.slots_per_day then 0
                      else cur / cons.slots_per_day) = some dayName ∧
      sess = { program := req.course.program
               section_ := req.section_
               course := req.course.name
               faculty := fac.name
               room := room.name
               day := dayName
               start := cur % cons.slots_per_day
               end_ := ((((if cons.days.length ≤ cur / cons.slots_per_day
                          then cur % cons.slots_per_day else cur) : Nat) : Int)
                        + (req.course.duration_slots : Int) - 1) % (cons.slots_per_day : Int)
               start_time := timeStr (cur % cons.slots_per_day)
               end_time := timeStr (((((if cons.days.length ≤ cur / cons.slots_per_day
                          then cur % cons.slots_per_day else cur) : Nat) : Int)
                        + (req.course.duration_slots : Int) - 1) % (cons.slots_per_day : Int)).toNat } ∧
      cur2 = (if cons.days.length ≤ cur / cons.slots_per_day
              then cur % cons.slots_per_day else cur) + req.course.duration_slots + 1 := by
  simp only [scheduleStep] at h
  split at h
  · exact absurd h (by simp)
  · rename_i hspd
    refine ⟨hspd, ?_⟩
    split at h
    · exact absurd h (by simp)
    · rename_i room hroom
      split at h
      · exact absurd h (by simp)
      · rename_i fac hfac
        split at h
        · exact absurd h (by simp)
        · rename_i dayName hday
          rw [Except.ok.injEq, Prod.mk.injEq] at h
          exact ⟨room, fac, dayName, hroom, hfac, hday, h.1.symm, h.2.symm⟩

/-- C1: with 2 days × 4 slots, one room of the required type, one
faculty record and two selections for known courses A and B of duration
2 each, the engine emits exactly two sessions in order: A on `days[0]`
with start 0 and end 1, then B on `days[0]` with start 3 and end 0 — the
end slot `3 + 2 - 1 = 4` wrapped by `mod slots_per_day` onto the same
day label as its start. -/
theorem c1_scenario_two_selections :
    ∃ s1 s2,
      solve_timetable [courseA, courseB] [roomLab] [facX] consC1 (some selsC1) =
        .ok [s1, s2] ∧
      consC1.days.head? = some s1.day ∧ s1.start = 0 ∧ s1.end_ = 1 ∧
      consC1.days.head? = some s2.day ∧ s2.start = 3 ∧ s2.end_ = 0 := by
  refine ⟨{ program := "P", section_ := "A", course := "Course A", faculty := "Dr. X",
            room := "Lab 1", day := "Mon", start := 0, end_ := 1,
            start_time := "08:00", end_time := "08:30" },
          { program := "P", section_ := "A", course := "Course B", faculty := "Dr. X",
            room := "Lab 1", day := "Mon", start := 3, end_ := 0,
            start_time := "10:30", end_time := "08:00" },
          ?_, rfl, rfl, rfl, rfl, rfl, rfl⟩
  rfl

/-- C2 (code bug): the emitted clock time for slot 3 is "10:30", not the
"09:30" demanded by the spec's truncation rule — `f"{9.5:02.0f}"` rounds
half to even while the minute is computed from the fractional part, so
the half hour is double-counted; the spec's other examples (slots 0, 1
and 16) do hold in the code. -/
theorem c2_time_encoding_slot3 :
    timeStr 3 = "10:30" ∧ timeStr 3 ≠ "09:30" ∧
    timeStr 0 = "08:00" ∧ timeStr 1 = "08:30" ∧ timeStr 16 = "16:00" := by
  refine ⟨rfl, ?_, rfl, rfl, rfl⟩
  decide

/-- C5: on any request for which `day_idx = current_slot div
slots_per_day` reaches or exceeds the number of configured days, a
successful step emits the session on `days[0]` with start
`current_slot mod slots_per_day`, and the shared counter continues from
the reset value: the new counter is `slot_in_day + duration_slots + 1`
(the accumulated day count is dropped). -/
theorem c5_day_wrap_reset {cons : Constraints} {rooms : List Room}
    {faculty : List Faculty} {cur : Nat} {req : Request} {sess : Session} {cur2 : Nat}
    (h : scheduleStep cons rooms faculty cur req = .ok (sess, cur2))
    (hwrap : cons.days.length ≤ cur / cons.slots_per_day) :
    cons.days.head? = some sess.day ∧
    sess.start = cur % cons.slots_per_day ∧
    cur2 = cur % cons.slots_per_day + req.course.duration_slots + 1 := by
  obtain ⟨hspd, room, fac, dayName, hroom, hfac, hday, hsess, hcur⟩ := scheduleStep_ok h
  rw [if_pos hwrap] at hday
  rw [if_pos hwrap] at hsess hcur
  subst hsess
  refine ⟨?_, rfl, hcur⟩
  rw [← List.get?_zero]
  exact hday

/-- Witness for C5 at a concrete wrapped input: 1 day × 2 slots, counter
at 2 (so `day_idx = 1 ≥ 1`). -/
theorem c5_day_wrap_reset_witness :
    consW5.days.length ≤ 2 / consW5.slots_per_day ∧
    consW5.days.head? = some sessW5.day ∧
    sessW5.start = 2 % consW5.slots_per_day ∧
    3 = 2 % consW5.slots_per_day + reqW5.course.duration_slots + 1 := by
  refine ⟨by decide, ?_⟩
  exact @c5_day_wrap_reset consW5 [roomLab] [facX] 2 reqW5 sessW5 3 rfl (by decide)

/-- A successful step emits a session with start and (wrapped) end slot
inside the day and a day name drawn from the configured day list. -/
theorem scheduleStep_bounds {cons : Constraints} {rooms : List Room} {faculty : List Faculty}
    {cur : Nat} {req : Request} {sess : Session} {cur2 : Nat}
    (h : scheduleStep cons rooms faculty cur req = .ok (sess, cur2)) :
    sess.start < cons.slots_per_day ∧ 0 ≤ sess.end_ ∧
    sess.end_ < (cons.slots_per_day : Int) ∧ sess.day ∈ cons.days := by
  obtain ⟨hspd, room, fac, dayName, _, _, hday, hsess, _⟩ := scheduleStep_ok h
  have hpos : 0 < cons.slots_per_day := Nat.pos_of_ne_zero hspd
  have hposZ : (0 : Int) < (cons.slots_per_day : Int) := by exact_mod_cast hpos
  subst hsess
  refine ⟨Nat.mod_lt _ hpos, ?_, ?_, ?_⟩
  · exact Int.emod_nonneg _ (by exact_mod_cast hspd)
  · exact Int.emod_lt_of_pos _ hposZ
  · exact List.get?_mem hday

/-- Every session of a successful run satisfies the step bounds. -/
theorem runSchedule_bounds {cons : Constraints} {rooms : List Room} {faculty : List Faculty} :
    ∀ (reqs : List Request) (cur : Nat) (out : List Session),
      runSchedule cons rooms faculty cur reqs = .ok out →
      ∀ s ∈ out, s.start < cons.slots_per_day ∧ 0 ≤ s.end_ ∧
        s.end_ < (cons.slots_per_day : Int) ∧ s.day ∈ cons.days := by
  intro reqs
  induction reqs with
  | nil =>
    intro cur out h s hs
    simp only [runSchedule] at h
    rw [Except.ok.injEq] at h
    subst h
    exact absurd hs (List.not_mem_nil s)
  | cons q rs ih =>
    intro cur out h s hs
    simp only [runSchedule] at h
    split at h
    · exact absurd h (by simp)
    · rename_i sess cur2 hstep
      split at h
      · exact absurd h (by simp)
      · rename_i rest hrest
        rw [Except.ok.injEq] at h
        subst h
        rcases List.mem_cons.mp hs with hs | hs
        · subst hs
          exact scheduleStep_bounds hstep
        · exact ih cur2 rest hrest s hs

/-- C9: with a positive `slots_per_day` and a non-empty day list, every
emitted session of a successful run has its start slot in
`[0, slots_per_day)`, its end slot in `[0, slots_per_day)` and a day
name that is an element of the configured day list — for every request
position, including after the day-index wrap. -/
theorem c9_session_invariants {courses : List Course} {rooms : List Room}
    {faculty : List Faculty} {cons : Constraints} {selections : Option (List Selection)}
    {out : List Session}
    (hspd : 0 < cons.slots_per_day) (hdays : cons.days ≠ [])
    (hok : solve_timetable courses rooms faculty cons selections = .ok out) :
    ∀ s ∈ out, s.start < cons.slots_per_day ∧ 0 ≤ s.end_ ∧
      s.end_ < (cons.slots_per_day : Int) ∧ s.day ∈ cons.days :=
  runSchedule_bounds (buildRequests courses selections) 0 out hok

/-- Witness for C9 on the concrete §8 scenario run. -/
theorem c9_session_invariants_witness :
    0 < consC1.slots_per_day ∧ consC1.days ≠ [] ∧
    ∀ s ∈ [sessW5], s.start < consC1.slots_per_day ∧ 0 ≤ s.end_ ∧
      s.end_ < (consC1.slots_per_day : Int) ∧ s.day ∈ consC1.days := by
  refine ⟨by decide, by decide, ?_⟩
  exact @c9_session_invariants [courseA] [roomLab] [facX] consC1
    (some [{ student_id := 1, course_code := "A", section_ := "A", faculty_id := none }])
    [sessW5] (by decide) (by decide) rfl

/-- C7: for every successfully placed request, if no room in the
collection has the course's required room type the emitted session's
room is the first room of the entire collection (insertion order), and
if some room of the required type exists it is the first such room;
moreover, with a non-empty room collection, room resolution itself never
raises. -/
theorem c7_room_resolution :
    (∀ (cons : Constraints) (rooms : List Room) (faculty : List Faculty) (cur : Nat)
       (req : Request) (sess : Session) (cur2 : Nat),
       scheduleStep cons rooms faculty cur req = .ok (sess, cur2) →
       ((rooms.find? (fun rm => rm.type == req.course.room_type) = none →
           ∀ r0, rooms.head? = some r0 → sess.room = r0.name) ∧
        (∀ r, rooms.find? (fun rm => rm.type == req.course.room_type) = some r →
           sess.room = r.name))) ∧
    (∀ (rooms : List Room) (rt : String), rooms ≠ [] →
       ∃ r, resolveRoom rooms rt = .ok r) := by
  constructor
  · intro cons rooms faculty cur req sess cur2 h
    obtain ⟨_, room, fac, dayName, hroom, _, _, hsess, _⟩ := scheduleStep_ok h
    subst hsess
    constructor
    · intro hnone r0 hr0
      unfold resolveRoom at hroom
      rw [hnone, hr0] at hroom
      rw [Except.ok.injEq] at hroom
      rw [← hroom]
    · intro r hr
      unfold resolveRoom at hroom
      rw [hr] at hroom
      rw [Except.ok.injEq] at hroom
      rw [← hroom]
  · intro rooms rt hne
    cases hfind : rooms.find? (fun rm => rm.type == rt) with
    | some r => exact ⟨r, by simp [resolveRoom, hfind]⟩
    | none =>
      match rooms, hne with
      | r0 :: rs, _ => exact ⟨r0, by simp [resolveRoom, hfind]⟩

/-- Witness for C7: a fallback resolution (no "Gym" room exists, so the
first room of the collection is used) and a matching resolution. -/
theorem c7_room_resolution_witness :
    ([roomLab].find? (fun rm => rm.type == "Gym") = none ∧
     Session.room sessW5 = roomLab.name) ∧
    ([roomLab] ≠ ([] : List Room) ∧ ∃ r, resolveRoom [roomLab] "Gym" = .ok r) := by
  refine ⟨⟨by decide, ?_⟩, by decide, c7_room_resolution.2 [roomLab] "Gym" (by decide)⟩
  have h := (c7_room_resolution.1 consW5 [roomLab] [facX] 2
    { student_id := none, course_code := "A", section_ := "A", faculty_id := none,
      course := { code := "A", name := "Course A", program := "P", section_ := "A",
                  duration_slots := 2, room_type := "Gym", faculty_pool := [] } }
    sessW5 3 rfl).1
  exact h (by decide) roomLab rfl

/-- On any request, an empty room collection, an empty faculty
collection together with an empty eligible pool, or a pool head with no
matching faculty record makes the placement step raise. -/
theorem scheduleStep_fails (cons : Constraints) (rooms : List Room) (faculty : List Faculty)
    (cur : Nat) (req : Request)
    (hfail : rooms = [] ∨ (faculty = [] ∧ req.course.faculty_pool = []) ∨
      (∃ fid rest, req.course.faculty_pool = fid :: rest ∧
        faculty.find? (fun f => f.id == fid) = none)) :
    ∃ e, scheduleStep cons rooms faculty cur req = .error e := by
  by_cases hspd : cons.slots_per_day = 0
  · exact ⟨"ZeroDivisionError: integer division or modulo by zero",
      by simp [scheduleStep, hspd]⟩
  · rcases hfail with hrooms | hfac
    · subst hrooms
      exact ⟨"IndexError: single positional indexer is out-of-bounds",
        by simp [scheduleStep, hspd, resolveRoom]⟩
    · cases hroom : resolveRoom rooms req.course.room_type with
      | error e => exact ⟨e, by simp [scheduleStep, hspd, hroom]⟩
      | ok room =>
        rcases hfac with ⟨h1, h2⟩ | ⟨fid, rest, hpool, hfind⟩
        · subst h1
          exact ⟨"IndexError: single positional indexer is out-of-bounds",
            by simp [scheduleStep, hspd, hroom, resolveFaculty, h2]⟩
        · exact ⟨"IndexError: single positional indexer is out-of-bounds",
            by simp [scheduleStep, hspd, hroom, resolveFaculty, hpool, hfind]⟩

/-- If some request of the list always fails at its placement step, the
whole run raises (whatever happened before it). -/
theorem runSchedule_error_of_mem {cons : Constraints} {rooms : List Room}
    {faculty : List Faculty} :
    ∀ (reqs : List Request) (cur : Nat) (r : Request), r ∈ reqs →
      (∀ cur', ∃ e, scheduleStep cons rooms faculty cur' r = .error e) →
      ∃ e, runSchedule cons rooms faculty cur reqs = .error e := by
  intro reqs
  induction reqs with
  | nil => intro cur r hr _; exact absurd hr (List.not_mem_nil r)
  | cons q rs ih =>
    intro cur r hr hfails
    cases hstep : scheduleStep cons rooms faculty cur q with
    | error e => exact ⟨e, by simp [runSchedule, hstep]⟩
    | ok p =>
      rcases List.mem_cons.mp hr with hq | hq
      · subst hq
        obtain ⟨e, he⟩ := hfails cur
        rw [hstep] at he
        exact absurd he (by simp)
      · obtain ⟨sess, cur2⟩ := p
        obtain ⟨e, he⟩ := ih cur2 r hq hfails
        exact ⟨e, by simp [runSchedule, hstep, he]⟩

/-- C6: if at least one request was accepted and the room collection is
empty, or the faculty collection is empty while the request's course has
an empty eligible-faculty pool, or the pool's first identifier matches
no faculty record, the run raises an error and emits no result list. -/
theorem c6_missing_resource_fatal (courses : List Course) (rooms : List Room)
    (faculty : List Faculty) (cons : Constraints) (selections : Option (List Selection))
    (hreq : buildRequests courses selections ≠ [])
    (hfail : rooms = [] ∨ ∃ r ∈ buildRequests courses selections,
      (faculty = [] ∧ r.course.faculty_pool = []) ∨
      (∃ fid rest, r.course.faculty_pool = fid :: rest ∧
        faculty.find? (fun f => f.id == fid) = none)) :
    ∃ e, solve_timetable courses rooms faculty cons selections = .error e := by
  unfold solve_timetable
  rcases hfail with hrooms | ⟨r, hmem, hcond⟩
  · cases hb : buildRequests courses selections with
    | nil => exact absurd hb hreq
    | cons q rs =>
      obtain ⟨e, he⟩ := scheduleStep_fails cons rooms faculty 0 q (Or.inl hrooms)
      exact ⟨e, by simp [runSchedule, he]⟩
  · exact runSchedule_error_of_mem (buildRequests courses selections) 0 r hmem
      (fun cur' => scheduleStep_fails cons rooms faculty cur' r (Or.inr hcond))

/-- Witness for C6: one known selection, an empty room collection. -/
theorem c6_missing_resource_fatal_witness :
    buildRequests [courseA] (some selsC1) ≠ [] ∧
    ∃ e, solve_timetable [courseA] [] [facX] consC1 (some selsC1) = .error e := by
  refine ⟨by decide, ?_⟩
  exact c6_missing_resource_fatal [courseA] [] [facX] consC1 (some selsC1)
    (by decide) (Or.inl rfl)

/-- A successful run emits exactly one session per request. -/
theorem runSchedule_length {cons : Constraints} {rooms : List Room} {faculty : List Faculty} :
    ∀ (reqs : List Request) (cur : Nat) (out : List Session),
      runSchedule cons rooms faculty cur reqs = .ok out → out.length = reqs.length := by
  intro reqs
  induction reqs with
  | nil =>
    intro cur out h
    simp only [runSchedule] at h
    rw [Except.ok.injEq] at h
    subst h
    rfl
  | cons q rs ih =>
    intro cur out h
    simp only [runSchedule] at h
    split at h
    · exact absurd h (by simp)
    · rename_i sess cur2 hstep
      split at h
      · exact absurd h (by simp)
      · rename_i rest hrest
        rw [Except.ok.injEq] at h
        subst h
        simp [ih cur2 rest hrest]

/-- Dropping the selections whose request is `none` first does not
change the built request list. -/
theorem filterMap_selReq_filter (courses : List Course) :
    ∀ sels : List Selection,
      (sels.filter (fun s => (courseLookup courses s.course_code).isSome)).filterMap
        (selReq courses) = sels.filterMap (selReq courses) := by
  intro sels
  induction sels with
  | nil => rfl
  | cons s t ih =>
    cases hc : courseLookup courses s.course_code with
    | none => simp [List.filter_cons, List.filterMap_cons, selReq, hc, ih]
    | some c => simp [List.filter_cons, List.filterMap_cons, selReq, hc, ih]

/-- The number of built requests is the number of selections whose
course code is in the catalog. -/
theorem length_filterMap_selReq (courses : List Course) :
    ∀ sels : List Selection,
      (sels.filterMap (selReq courses)).length =
      (sels.filter (fun s => (courseLookup courses s.course_code).isSome)).length := by
  intro sels
  induction sels with
  | nil => rfl
  | cons s t ih =>
    cases hc : courseLookup courses s.course_code with
    | none => simp [List.filter_cons, List.filterMap_cons, selReq, hc, ih]
    | some c => simp [List.filter_cons, List.filterMap_cons, selReq, hc, ih]

/-- C4: with an explicit non-empty selection list, every selection whose
course code is absent from the catalog is silently dropped: a successful
run has exactly `N − k` sessions (`k` the number of unknown-code
selections), and — whenever at least one selection is known — the whole
output equals the output of running the engine on the selection list
with the unknown-code selections removed. -/
theorem c4_unknown_selections_dropped (courses : List Course) (rooms : List Room)
    (faculty : List Faculty) (cons : Constraints) (sels : List Selection)
    (hne : sels ≠ []) :
    (∀ out, solve_timetable courses rooms faculty cons (some sels) = .ok out →
       out.length =
         (sels.filter (fun s => (courseLookup courses s.course_code).isSome)).length) ∧
    (sels.filter (fun s => (courseLookup courses s.course_code).isSome) ≠ [] →
       solve_timetable courses rooms faculty cons (some sels) =
       solve_timetable courses rooms faculty cons
         (some (sels.filter (fun s => (courseLookup courses s.course_code).isSome)))) := by
  have hbuild : buildRequests courses (some sels) = sels.filterMap (selReq courses) := by
    simp [buildRequests, List.isEmpty_iff, hne]
  constructor
  · intro out hok
    unfold solve_timetable at hok
    rw [hbuild] at hok
    rw [runSchedule_length _ 0 out hok]
    exact length_filterMap_selReq courses sels
  · intro hfne
    have hbuild2 : buildRequests courses
        (some (sels.filter (fun s => (courseLookup courses s.course_code).isSome))) =
        sels.filterMap (selReq courses) := by
      simp only [buildRequests, List.isEmpty_iff, if_neg hfne]
      exact filterMap_selReq_filter courses sels
    unfold solve_timetable
    rw [hbuild, hbuild2]

/-- Witness for C4: selections for the known course "A" and an unknown
code "Z": one session, and agreement with the filtered run. -/
theorem c4_unknown_selections_dropped_witness :
    ([Selection.mk 1 "A" "A" none, Selection.mk 2 "Z" "A" none] ≠ ([] : List Selection)) ∧
    (∀ out, solve_timetable [courseA] [roomLab] [facX] consC1
        (some [Selection.mk 1 "A" "A" none, Selection.mk 2 "Z" "A" none]) = .ok out →
      out.length = ([Selection.mk 1 "A" "A" none, Selection.mk 2 "Z" "A" none].filter
        (fun s => (courseLookup [courseA] s.course_code).isSome)).length) ∧
    ([Selection.mk 1 "A" "A" none, Selection.mk 2 "Z" "A" none].filter
        (fun s => (courseLookup [courseA] s.course_code).isSome) ≠ [] →
      solve_timetable [courseA] [roomLab] [facX] consC1
        (some [Selection.mk 1 "A" "A" none, Selection.mk 2 "Z" "A" none]) =
      solve_timetable [courseA] [roomLab] [facX] consC1
        (some ([Selection.mk 1 "A" "A" none, Selection.mk 2 "Z" "A" none].filter
          (fun s => (courseLookup [courseA] s.course_code).isSome)))) := by
  have h := c4_unknown_selections_dropped [courseA] [roomLab] [facX] consC1
    [Selection.mk 1 "A" "A" none, Selection.mk 2 "Z" "A" none] (by decide)
  exact ⟨by decide, h.1, h.2⟩

/-- The placement step reads only the course record and the section
label of a request. -/
theorem scheduleStep_congr {cons : Constraints} {rooms : List Room} {faculty : List Faculty}
    {cur : Nat} {r1 r2 : Request}
    (h1 : r1.course = r2.course) (h2 : r1.section_ = r2.section_) :
    scheduleStep cons rooms faculty cur r1 = scheduleStep cons rooms faculty cur r2 := by
  simp only [scheduleStep, h1, h2]

/-- Runs over request lists that agree pairwise on course record and
section label coincide. -/
theorem runSchedule_congr {cons : Constraints} {rooms : List Room} {faculty : List Faculty}
    {reqs1 reqs2 : List Request}
    (hF : List.Forall₂ (fun r1 r2 => r1.course = r2.course ∧ r1.section_ = r2.section_)
      reqs1 reqs2) :
    ∀ cur, runSchedule cons rooms faculty cur reqs1 =
      runSchedule cons rooms faculty cur reqs2 := by
  induction hF with
  | nil => intro cur; rfl
  | cons hr htail ih =>
    intro cur
    rename_i a b t1 t2
    simp only [runSchedule]
    rw [scheduleStep_congr hr.1 hr.2]
    cases hstep : scheduleStep cons rooms faculty cur b with
    | error e => rfl
    | ok p =>
      obtain ⟨sess, cur2⟩ := p
      simp only [ih]

/-- Request lists built from projection-equal selection lists agree on
course record and section label, pairwise. -/
theorem buildRel (courses : List Course) :
    ∀ (sels1 sels2 : List Selection), sels1.map selProj = sels2.map selProj →
      List.Forall₂ (fun r1 r2 => r1.course = r2.course ∧ r1.section_ = r2.section_)
        (sels1.filterMap (selReq courses)) (sels2.filterMap (selReq courses)) := by
  intro sels1
  induction sels1 with
  | nil =>
    intro sels2 h
    cases sels2 with
    | nil => exact List.Forall₂.nil
    | cons s2 t2 => exact absurd h (by simp [selProj])
  | cons s1 t1 ih =>
    intro sels2 h
    cases sels2 with
    | nil => exact absurd h (by simp [selProj])
    | cons s2 t2 =>
      simp only [List.map_cons, List.cons.injEq] at h
      obtain ⟨hhead, htail⟩ := h
      have hcode : s1.course_code = s2.course_code := by
        have := congrArg Prod.fst hhead
        simpa [selProj] using this
      have hsec : s1.section_ = s2.section_ := by
        have := congrArg Prod.snd hhead
        simpa [selProj] using this
      cases hc : courseLookup courses s1.course_code with
      | none =>
        have hc2 : courseLookup courses s2.course_code = none := by
          rw [← hcode]; exact hc
        simp only [List.filterMap_cons, selReq, hc, hc2, Option.map_none']
        exact ih t2 htail
      | some c =>
        have hc2 : courseLookup courses s2.course_code = some c := by
          rw [← hcode]; exact hc
        simp only [List.filterMap_cons, selReq, hc, hc2, Option.map_some']
        exact List.Forall₂.cons ⟨rfl, hsec⟩ (ih t2 htail)

/-- C10: the engine's output is independent of the `student_id` and
`faculty_id` fields of the selections — two selection lists whose rows
agree pairwise on course code and section produce identical outputs. -/
theorem c10_output_independent_of_ids (courses : List Course) (rooms : List Room)
    (faculty : List Faculty) (cons : Constraints) (sels1 sels2 : List Selection)
    (h : sels1.map selProj = sels2.map selProj) :
    solve_timetable courses rooms faculty cons (some sels1) =
    solve_timetable courses rooms faculty cons (some sels2) := by
  unfold solve_timetable
  by_cases hne : sels1 = []
  · subst hne
    have : sels2 = [] := by
      cases sels2 with
      | nil => rfl
      | cons s t => exact absurd h (by simp [selProj])
    subst this
    rfl
  · have hne2 : sels2 ≠ [] := by
      intro h2
      subst h2
      cases sels1 with
      | nil => exact hne rfl
      | cons s t => exact absurd h (by simp [selProj])
    simp only [buildRequests, List.isEmpty_iff, if_neg hne, if_neg hne2]
    exact runSchedule_congr (buildRel courses sels1 sels2 h) 0

/-- Witness for C10: the same course/section pairs with different
student and faculty identifiers give identical runs. -/
theorem c10_output_independent_of_ids_witness :
    ([Selection.mk 1 "A" "A" none, Selection.mk 1 "B" "A" none].map selProj =
     [Selection.mk 7 "A" "A" (some 3), Selection.mk 9 "B" "A" (some 4)].map selProj) ∧
    solve_timetable [courseA, courseB] [roomLab] [facX] consC1
      (some [Selection.mk 1 "A" "A" none, Selection.mk 1 "B" "A" none]) =
    solve_timetable [courseA, courseB] [roomLab] [facX] consC1
      (some [Selection.mk 7 "A" "A" (some 3), Selection.mk 9 "B" "A" (some 4)]) := by
  refine ⟨by decide, ?_⟩
  exact c10_output_independent_of_ids [courseA, courseB] [roomLab] [facX] consC1
    [Selection.mk 1 "A" "A" none, Selection.mk 1 "B" "A" none]
    [Selection.mk 7 "A" "A" (some 3), Selection.mk 9 "B" "A" (some 4)] (by decide)

/-! ### Frame lemmas for the JSON-column pair (C8) -/

/-- Updating one column keeps the column names (positionally). -/
theorem names_updateCol (df : DF) (col : String) (cells : List JVal) :
    (updateCol df col cells).map (fun e => e.1) = df.map (fun e => e.1) := by
  induction df with
  | nil => rfl
  | cons e t ih =>
    simp only [updateCol, List.map_cons] at ih ⊢
    by_cases h : e.1 == col
    · simp only [h, if_true, ih]
    · simp only [h, Bool.false_eq_true, if_false, ih]

/-- Updating one column does not change the lookup of another. -/
theorem getCol_updateCol_ne (df : DF) (col col' : String) (cells : List JVal)
    (hne : col' ≠ col) :
    getCol (updateCol df col cells) col' = getCol df col' := by
  induction df with
  | nil => rfl
  | cons e t ih =>
    simp only [updateCol, getCol, List.map_cons, List.find?_cons] at ih ⊢
    by_cases h1 : e.1 == col
    · have he : e.1 = col := by
        have h1x := h1
        simp only [beq_iff_eq] at h1x
        exact h1x
      have h2 : (e.1 == col') = false := by
        rw [he]
        exact beq_false_of_ne (fun hcc => hne hcc.symm)
      simp only [h1, if_true, h2, Bool.false_eq_true, if_false]
      exact ih
    · simp only [h1, Bool.false_eq_true, if_false]
      by_cases h2 : e.1 == col'
      · simp only [h2, if_true]
      · simp only [h2, Bool.false_eq_true, if_false]
        exact ih

/-- Serialization keeps every column name and leaves every column whose
name is not declared as a JSON column untouched. -/
theorem serialize_json_columns_frame :
    ∀ (cols : List String) (df : DF),
      (serialize_json_columns df cols).map (fun e => e.1) = df.map (fun e => e.1) ∧
      ∀ col, col ∉ cols → getCol (serialize_json_columns df cols) col = getCol df col := by
  intro cols
  induction cols with
  | nil => intro df; exact ⟨rfl, fun col _ => rfl⟩
  | cons c cs ih =>
    intro df
    simp only [serialize_json_columns]
    cases hget : getCol df c with
    | none =>
      refine ⟨(ih df).1, fun col hcol => ?_⟩
      exact (ih df).2 col (fun hm => hcol (List.mem_cons_of_mem c hm))
    | some cells =>
      constructor
      · exact ((ih _).1).trans (names_updateCol df c (cells.map serializeCell))
      · intro col hcol
        have hne : col ≠ c := fun h => hcol (h ▸ List.mem_cons_self c cs)
        have h1 := (ih (updateCol df c (cells.map serializeCell))).2 col
          (fun hm => hcol (List.mem_cons_of_mem c hm))
        exact h1.trans (getCol_updateCol_ne df c col _ hne)

/-- Parsing (when it succeeds) keeps every column name and leaves every
column whose name is not declared as a JSON column untouched. -/
theorem parse_json_columns_frame :
    ∀ (cols : List String) (df df2 : DF),
      parse_json_columns df cols = .ok df2 →
      df2.map (fun e => e.1) = df.map (fun e => e.1) ∧
      ∀ col, col ∉ cols → getCol df2 col = getCol df col := by
  intro cols
  induction cols with
  | nil =>
    intro df df2 h
    simp only [parse_json_columns, Except.ok.injEq] at h
    subst h
    exact ⟨rfl, fun col _ => rfl⟩
  | cons c cs ih =>
    intro df df2 h
    simp only [parse_json_columns] at h
    split at h
    · rename_i cells hget
      split at h
      · exact absurd h (by simp)
      · rename_i cells2 hmap
        obtain ⟨hnames, hframe⟩ := ih (updateCol df c cells2) df2 h
        constructor
        · exact hnames.trans (names_updateCol df c cells2)
        · intro col hcol
          have hne : col ≠ c := fun hx => hcol (hx ▸ List.mem_cons_self c cs)
          exact (hframe col (fun hm => hcol (List.mem_cons_of_mem c hm))).trans
            (getCol_updateCol_ne df c col _ hne)
    · rename_i hget
      obtain ⟨hnames, hframe⟩ := ih df df2 h
      exact ⟨hnames, fun col hcol => hframe col (fun hm => hcol (List.mem_cons_of_mem c hm))⟩

/-- C8: both JSON-column helpers are pure functions of the collection —
the model's input list is untouched by construction, mirroring
`df = dataframe.copy()` — and their result keeps every column name and
leaves the cells of every column not listed as a JSON column (including
names absent from the collection, for which `col in df.columns` fails)
exactly as in the input. -/
theorem c8_json_coercion_frame :
    (∀ (df : DF) (cols : List String),
      (serialize_json_columns df cols).map (fun e => e.1) = df.map (fun e => e.1) ∧
      ∀ col, col ∉ cols → getCol (serialize_json_columns df cols) col = getCol df col) ∧
    (∀ (df : DF) (cols : List String) (df2 : DF),
      parse_json_columns df cols = .ok df2 →
      df2.map (fun e => e.1) = df.map (fun e => e.1) ∧
      ∀ col, col ∉ cols → getCol df2 col = getCol df col) :=
  ⟨fun df cols => serialize_json_columns_frame cols df,
   fun df cols df2 h => parse_json_columns_frame cols df df2 h⟩

/-- Witness for C8: parsing/serializing the `faculty_pool` column of a
concrete two-column table leaves the `name` column untouched. -/
theorem c8_json_coercion_frame_witness :
    ((serialize_json_columns dfW ["faculty_pool"]).map (fun e => e.1) =
       dfW.map (fun e => e.1) ∧
     getCol (serialize_json_columns dfW ["faculty_pool"]) "name" = getCol dfW "name") ∧
    (∀ df2, parse_json_columns dfW ["faculty_pool"] = .ok df2 →
       df2.map (fun e => e.1) = dfW.map (fun e => e.1) ∧
       ∀ col, col ∉ ["faculty_pool"] → getCol df2 col = getCol dfW col) := by
  constructor
  · have h := c8_json_coercion_frame.1 dfW ["faculty_pool"]
    exact ⟨h.1, h.2 "name" (by decide)⟩
  · exact fun df2 h => c8_json_coercion_frame.2 dfW ["faculty_pool"] df2 h

/-! ### Character and digit lemmas for the codec proofs -/

/-- `Char.ofNat` of a valid code point keeps its value. -/
theorem char_toNat_ofNat {n : Nat} (h : n.isValidChar) : (Char.ofNat n).toNat = n := by
  simp only [Char.ofNat]
  rw [dif_pos h]
  rfl

/-- Unequal code points give unequal characters. -/
theorem char_ne_of_toNat_ne {c d : Char} (h : c.toNat ≠ d.toNat) : c ≠ d :=
  fun he => h (congrArg Char.toNat he)

/-- The code point of a decimal digit character. -/
theorem digitChar_toNat {n : Nat} (h : n < 10) : (digitChar n).toNat = 48 + n :=
  char_toNat_ofNat (Or.inl (by omega))

/-- A digit character passes the digit test. -/
theorem isDigitChar_digitChar {n : Nat} (h : n < 10) : isDigitChar (digitChar n) = true := by
  unfold isDigitChar
  rw [decide_eq_true_iff]
  rw [digitChar_toNat h]
  omega

/-- Reading off the digit range from the digit test. -/
theorem isDigitChar_range {c : Char} (h : isDigitChar c = true) :
    48 ≤ c.toNat ∧ c.toNat ≤ 57 := by
  unfold isDigitChar at h
  rw [decide_eq_true_iff] at h
  exact h

/-- Characters with code point at least 33 are not JSON whitespace. -/
theorem isJsonWs_eq_false {c : Char} (h : 33 ≤ c.toNat) : isJsonWs c = false := by
  unfold isJsonWs
  rw [decide_eq_false_iff_not]
  rintro (rfl | rfl | rfl | rfl) <;> exact absurd h (by decide)

/-- `skipWs` does not move past a non-whitespace head. -/
theorem skipWs_cons_of_not_ws {c : Char} {t : List Char} (h : isJsonWs c = false) :
    skipWs (c :: t) = c :: t := by
  simp [skipWs, h]

/-- Unfolding lemma for the digit fold. -/
theorem digitsToNat_cons (acc : Nat) (c : Char) (l : List Char) :
    digitsToNat acc (c :: l) = digitsToNat (acc * 10 + (c.toNat - 48)) l := rfl

/-- Unfolding lemma for the digit fold. -/
theorem digitsToNat_nil (acc : Nat) : digitsToNat acc [] = acc := rfl

/-- Folding digits over an appended list. -/
theorem digitsToNat_append (l1 l2 : List Char) : ∀ acc,
    digitsToNat acc (l1 ++ l2) = digitsToNat (digitsToNat acc l1) l2 := by
  induction l1 with
  | nil => intro acc; rfl
  | cons c t ih =>
    intro acc
    rw [List.cons_append, digitsToNat_cons, digitsToNat_cons]
    exact ih _

/-- The decimal printer emits a non-empty all-digit list whose digits
fold back to the printed number. -/
theorem natCharsAux_spec : ∀ (fuel n : Nat), n < fuel →
    natCharsAux fuel n ≠ [] ∧ (∀ c ∈ natCharsAux fuel n, isDigitChar c = true) ∧
    ∀ acc, digitsToNat acc (natCharsAux fuel n) =
      acc * 10 ^ (natCharsAux fuel n).length + n := by
  intro fuel
  induction fuel with
  | zero => intro n h; omega
  | succ f ih =>
    intro n h
    by_cases h10 : n < 10
    · simp only [natCharsAux, if_pos h10]
      refine ⟨by simp, ?_, ?_⟩
      · intro c hc
        rw [List.mem_singleton] at hc
        subst hc
        exact isDigitChar_digitChar h10
      · intro acc
        rw [digitsToNat_cons, digitsToNat_nil, digitChar_toNat h10]
        simp only [List.length_singleton, pow_one]
        omega
    · simp only [natCharsAux, if_neg h10]
      have hlt : n / 10 < f := by omega
      obtain ⟨hne, hdig, hval⟩ := ih (n / 10) hlt
      refine ⟨by simp, ?_, ?_⟩
      · intro c hc
        rcases List.mem_append.mp hc with hc | hc
        · exact hdig c hc
        · rw [List.mem_singleton] at hc
          subst hc
          exact isDigitChar_digitChar (by omega)
      · intro acc
        rw [digitsToNat_append, hval acc, digitsToNat_cons, digitsToNat_nil]
        rw [digitChar_toNat (show n % 10 < 10 by omega)]
        rw [List.length_append, List.length_singleton, pow_succ]
        have hx : 48 + n % 10 - 48 = n % 10 := by omega
        rw [hx]
        have hy : n / 10 * 10 + n % 10 = n := by omega
        set P := 10 ^ (natCharsAux f (n / 10)).length
        ring_nf
        omega

/-- `takeDigits` splits an all-digit prefix from a non-digit remainder. -/
theorem takeDigits_append (ds rest : List Char)
    (hds : ∀ c ∈ ds, isDigitChar c = true)
    (hrest : ∀ c, rest.head? = some c → isDigitChar c = false) :
    takeDigits (ds ++ rest) = (ds, rest) := by
  induction ds with
  | nil =>
    cases rest with
    | nil => rfl
    | cons c t =>
      simp only [List.nil_append, takeDigits]
      rw [hrest c rfl]
      simp
  | cons d t ih =>
    simp only [List.cons_append, takeDigits, List.append_eq]
    rw [hds d (List.mem_cons_self d t)]
    simp only [if_true]
    rw [ih (fun c hc => hds c (List.mem_cons_of_mem d hc))]

/-- Hex digit round trip. -/
theorem hexDigitVal_hexDigitChar : ∀ d, d < 16 → hexDigitVal (hexDigitChar d) = some d := by
  decide

/-- Four-hex-digit round trip. -/
theorem parseHex4_hex4 (n : Nat) (h : n < 65536) (r : List Char) :
    parseHex4 (hex4 n ++ r) = .ok (n, r) := by
  simp only [hex4, List.cons_append, List.nil_append, parseHex4]
  rw [hexDigitVal_hexDigitChar _ (by omega), hexDigitVal_hexDigitChar _ (by omega),
      hexDigitVal_hexDigitChar _ (by omega), hexDigitVal_hexDigitChar _ (by omega)]
  have hv : ((n / 4096 % 16 * 16 + n / 256 % 16) * 16 + n / 16 % 16) * 16 + n % 16 = n := by
    omega
  dsimp only
  rw [hv]

/-- Escaping a character emits at least one character. -/
theorem escapeChar_length_pos (c : Char) : 1 ≤ (escapeChar c).length := by
  unfold escapeChar
  split_ifs <;> simp

/-- Escaping never shortens a string. -/
theorem escapeStr_length (s : List Char) : s.length ≤ (escapeStr s).length := by
  induction s with
  | nil => simp [escapeStr]
  | cons c t ih =>
    simp only [escapeStr, List.length_append, List.length_cons]
    have := escapeChar_length_pos c
    omega

/-- The validity invariant of a `Char`, read off at the `Nat` level: no
surrogates, below the Unicode ceiling. -/
theorem char_valid_nat (c : Char) : c.toNat < 55296 ∨ (57343 < c.toNat ∧ c.toNat < 1114112) := by
  rcases c.valid with h | ⟨h1, h2⟩
  · exact Or.inl h
  · exact Or.inr ⟨h1, h2⟩

/-- One-step reduction of the scanner on an ordinary character. -/
theorem scanString_plain_red (f : Nat) (c : Char) (T : List Char)
    (h1 : ¬c = '"') (h2 : ¬c = '\\') (h3 : ¬c.toNat < 32) :
    scanString (f + 1) (c :: T) =
      (match scanString f T with
       | Except.error msg => Except.error msg
       | Except.ok (cs, r) => Except.ok (c :: cs, r)) := by
  simp only [scanString]
  rw [if_neg h1, if_neg h2, if_neg h3]

/-- One-step reduction of the scanner on a `\u` escape. -/
theorem scanString_u_red (f : Nat) (T : List Char) :
    scanString (f + 1) ('\\' :: 'u' :: T) =
      (match parseHex4 T with
       | Except.error msg => Except.error msg
       | Except.ok (n, rest3) =>
         if 55296 ≤ n ∧ n ≤ 56319 then
           match rest3 with
           | b1 :: b2 :: rest4 =>
             if b1 = '\\' ∧ b2 = 'u' then
               match parseHex4 rest4 with
               | Except.error msg => Except.error msg
               | Except.ok (n2, rest5) =>
                 if 56320 ≤ n2 ∧ n2 ≤ 57343 then
                   match scanString f rest5 with
                   | Except.error msg => Except.error msg
                   | Except.ok (cs, r) =>
                     Except.ok (Char.ofNat (65536 + (n - 55296) * 1024 + (n2 - 56320)) :: cs, r)
                 else Except.error "lone surrogate escape is outside the model"
             else Except.error "lone surrogate escape is outside the model"
           | _ => Except.error "lone surrogate escape is outside the model"
         else if 56320 ≤ n ∧ n ≤ 57343 then
           Except.error "lone surrogate escape is outside the model"
         else
           match scanString f rest3 with
           | Except.error msg => Except.error msg
           | Except.ok (cs, r) => Except.ok (Char.ofNat n :: cs, r)) := rfl

/-- Scanning an escaped string body up to the closing quote recovers the
original characters and leaves the remainder untouched. -/
theorem scanString_escape : ∀ (s : List Char) (rest : List Char) (fuel : Nat),
    s.length < fuel → scanString fuel (escapeStr s ++ '"' :: rest) = .ok (s, rest) := by
  intro s
  induction s with
  | nil =>
    intro rest fuel hf
    cases fuel with
    | zero => omega
    | succ f => rfl
  | cons c cs ih =>
    intro rest fuel hf
    cases fuel with
    | zero => omega
    | succ f =>
      have hcs : cs.length < f := by
        simp only [List.length_cons] at hf
        omega
      by_cases h1 : c = '"'
      · subst h1
        have hred : scanString (f + 1) (escapeStr ('"' :: cs) ++ '"' :: rest) =
            (match scanString f (escapeStr cs ++ '"' :: rest) with
             | .error msg => .error msg
             | .ok (cs2, r) => .ok ('"' :: cs2, r)) := rfl
        rw [hred, ih rest f hcs]
      · by_cases h2 : c = '\\'
        · subst h2
          have hred : scanString (f + 1) (escapeStr ('\\' :: cs) ++ '"' :: rest) =
              (match scanString f (escapeStr cs ++ '"' :: rest) with
               | .error msg => .error msg
               | .ok (cs2, r) => .ok ('\\' :: cs2, r)) := rfl
          rw [hred, ih rest f hcs]
        · by_cases h3 : c = '\n'
          · subst h3
            have hred : scanString (f + 1) (escapeStr ('\n' :: cs) ++ '"' :: rest) =
                (match scanString f (escapeStr cs ++ '"' :: rest) with
                 | .error msg => .error msg
                 | .ok (cs2, r) => .ok ('\n' :: cs2, r)) := rfl
            rw [hred, ih rest f hcs]
          · by_cases h4 : c = '\r'
            · subst h4
              have hred : scanString (f + 1) (escapeStr ('\r' :: cs) ++ '"' :: rest) =
                  (match scanString f (escapeStr cs ++ '"' :: rest) with
                   | .error msg => .error msg
                   | .ok (cs2, r) => .ok ('\r' :: cs2, r)) := rfl
              rw [hred, ih rest f hcs]
            · by_cases h5 : c = '\t'
              · subst h5
                have hred : scanString (f + 1) (escapeStr ('\t' :: cs) ++ '"' :: rest) =
                    (match scanString f (escapeStr cs ++ '"' :: rest) with
                     | .error msg => .error msg
                     | .ok (cs2, r) => .ok ('\t' :: cs2, r)) := rfl
                rw [hred, ih rest f hcs]
              · by_cases h6 : c.toNat = 8
                · have hc : c = Char.ofNat 8 := by
                    rw [← Char.ofNat_toNat c, h6]
                  subst hc
                  have hred : scanString (f + 1)
                      (escapeStr (Char.ofNat 8 :: cs) ++ '"' :: rest) =
                      (match scanString f (escapeStr cs ++ '"' :: rest) with
                       | .error msg => .error msg
                       | .ok (cs2, r) => .ok (Char.ofNat 8 :: cs2, r)) := rfl
                  rw [hred, ih rest f hcs]
                · by_cases h7 : c.toNat = 12
                  · have hc : c = Char.ofNat 12 := by
                      rw [← Char.ofNat_toNat c, h7]
                    subst hc
                    have hred : scanString (f + 1)
                        (escapeStr (Char.ofNat 12 :: cs) ++ '"' :: rest) =
                        (match scanString f (escapeStr cs ++ '"' :: rest) with
                         | .error msg => .error msg
                         | .ok (cs2, r) => .ok (Char.ofNat 12 :: cs2, r)) := rfl
                    rw [hred, ih rest f hcs]
                  · by_cases h8 : 32 ≤ c.toNat ∧ c.toNat ≤ 126
                    · -- printable ASCII: escapeChar c = [c]
                      have hesc : escapeChar c = [c] := by
                        unfold escapeChar
                        rw [if_neg h1, if_neg h2, if_neg h3, if_neg h4, if_neg h5,
                            if_neg h6, if_neg h7, if_pos h8]
                      have hlist : escapeStr (c :: cs) ++ '"' :: rest =
                          c :: (escapeStr cs ++ '"' :: rest) := by
                        show (escapeChar c ++ escapeStr cs) ++ '"' :: rest = _
                        rw [hesc]
                        simp
                      rw [hlist, scanString_plain_red f c _ h1 h2 (by omega),
                          ih rest f hcs]
                    · by_cases h9 : c.toNat ≤ 65535
                      · -- BMP \uXXXX escape
                        have hval : c.toNat < 55296 ∨ 57343 < c.toNat := by
                          rcases char_valid_nat c with h | ⟨h, _⟩
                          · exact Or.inl h
                          · exact Or.inr h
                        have hesc : escapeChar c = '\\' :: 'u' :: hex4 c.toNat := by
                          unfold escapeChar
                          rw [if_neg h1, if_neg h2, if_neg h3, if_neg h4, if_neg h5,
                              if_neg h6, if_neg h7, if_neg h8, if_pos h9]
                        have hlist : escapeStr (c :: cs) ++ '"' :: rest =
                            '\\' :: 'u' :: (hex4 c.toNat ++ (escapeStr cs ++ '"' :: rest)) := by
                          show (escapeChar c ++ escapeStr cs) ++ '"' :: rest = _
                          rw [hesc]
                          simp
                        rw [hlist, scanString_u_red,
                            parseHex4_hex4 c.toNat (by omega) _]
                        dsimp only
                        rw [if_neg (by omega : ¬(55296 ≤ c.toNat ∧ c.toNat ≤ 56319)),
                            if_neg (by omega : ¬(56320 ≤ c.toNat ∧ c.toNat ≤ 57343)),
                            ih rest f hcs]
                        dsimp only
                        rw [Char.ofNat_toNat]
                      · -- astral plane: surrogate pair
                        have hval : c.toNat < 1114112 := by
                          rcases char_valid_nat c with h | ⟨_, h⟩
                          · omega
                          · exact h
                        have hesc : escapeChar c =
                            ('\\' :: 'u' :: hex4 (55296 + (c.toNat - 65536) / 1024)) ++
                            ('\\' :: 'u' :: hex4 (56320 + (c.toNat - 65536) % 1024)) := by
                          unfold escapeChar
                          rw [if_neg h1, if_neg h2, if_neg h3, if_neg h4, if_neg h5,
                              if_neg h6, if_neg h7, if_neg h8, if_neg h9]
                        have hlist : escapeStr (c :: cs) ++ '"' :: rest =
                            '\\' :: 'u' :: (hex4 (55296 + (c.toNat - 65536) / 1024) ++
                              ('\\' :: 'u' :: (hex4 (56320 + (c.toNat - 65536) % 1024) ++
                                (escapeStr cs ++ '"' :: rest)))) := by
                          show (escapeChar c ++ escapeStr cs) ++ '"' :: rest = _
                          rw [hesc]
                          simp
                        rw [hlist, scanString_u_red,
                            parseHex4_hex4 (55296 + (c.toNat - 65536) / 1024) (by omega) _]
                        dsimp only
                        rw [if_pos (show 55296 ≤ 55296 + (c.toNat - 65536) / 1024 ∧
                              55296 + (c.toNat - 65536) / 1024 ≤ 56319 by omega)]
                        try dsimp only
                        rw [if_pos (show ('\\' : Char) = '\\' ∧ ('u' : Char) = 'u'
                              from ⟨rfl, rfl⟩)]
                        rw [parseHex4_hex4 (56320 + (c.toNat - 65536) % 1024) (by omega) _]
                        dsimp only
                        rw [if_pos (show 56320 ≤ 56320 + (c.toNat - 65536) % 1024 ∧
                              56320 + (c.toNat - 65536) % 1024 ≤ 57343 by omega)]
                        rw [ih rest f hcs]
                        dsimp only
                        have harith : 65536 + (55296 + (c.toNat - 65536) / 1024 - 55296) * 1024 +
                            (56320 + (c.toNat - 65536) % 1024 - 56320) = c.toNat := by
                          omega
                        rw [harith, Char.ofNat_toNat]


/-- Convenience form of `natCharsAux_spec` at the standard fuel. -/
theorem natChars_spec (n : Nat) :
    natChars n ≠ [] ∧ (∀ c ∈ natChars n, isDigitChar c = true) ∧
    ∀ acc, digitsToNat acc (natChars n) = acc * 10 ^ (natChars n).length + n :=
  natCharsAux_spec (n + 1) n (by omega)

/-- Every serialized value starts with one of the scanner's dispatch
characters. -/
theorem dumpsChars_head : ∀ v : JVal, ∃ c t, dumpsChars v = c :: t ∧
    (c = '"' ∨ c = '[' ∨ c = lbrace ∨ c = 'n' ∨ c = 't' ∨ c = 'f' ∨ c = '-' ∨
     isDigitChar c = true) := by
  intro v
  cases v with
  | jnull => exact ⟨'n', _, rfl, by tauto⟩
  | jbool b => cases b with
    | true => exact ⟨'t', _, rfl, by tauto⟩
    | false => exact ⟨'f', _, rfl, by tauto⟩
  | jint n =>
    show ∃ c t, intChars n = c :: t ∧ _
    unfold intChars
    by_cases hn : n < 0
    · rw [if_pos hn]
      exact ⟨'-', _, rfl, by tauto⟩
    · rw [if_neg hn]
      obtain ⟨hne, hdig, _⟩ := natChars_spec n.toNat
      cases hc : natChars n.toNat with
      | nil => exact absurd hc hne
      | cons c t =>
        refine ⟨c, t, rfl, Or.inr (Or.inr (Or.inr (Or.inr (Or.inr (Or.inr (Or.inr ?_))))))⟩
        exact hdig c (hc ▸ List.mem_cons_self c t)
  | jstr s => exact ⟨'"', _, rfl, by tauto⟩
  | jarr xs => cases xs with
    | nil => exact ⟨'[', _, rfl, by tauto⟩
    | cons x t => exact ⟨'[', _, rfl, by tauto⟩
  | jobj kvs =>
    match kvs with
    | [] => exact ⟨lbrace, _, rfl, by tauto⟩
    | (k, v) :: t => exact ⟨lbrace, _, rfl, by tauto⟩

/-- The head of a serialized value has code point at least 33 (so it is
not whitespace) and is none of `]`, `.`, `e`-as-exponent context breaker
`,` or the closing brace. -/
theorem dumps_head_facts {c : Char}
    (h : c = '"' ∨ c = '[' ∨ c = lbrace ∨ c = 'n' ∨ c = 't' ∨ c = 'f' ∨ c = '-' ∨
     isDigitChar c = true) :
    33 ≤ c.toNat ∧ c ≠ ']' ∧ c ≠ rbrace ∧ c ≠ ',' := by
  rcases h with rfl | rfl | rfl | rfl | rfl | rfl | rfl | h
  · exact ⟨by decide, by decide, by decide, by decide⟩
  · exact ⟨by decide, by decide, by decide, by decide⟩
  · exact ⟨by decide, by decide, by decide, by decide⟩
  · exact ⟨by decide, by decide, by decide, by decide⟩
  · exact ⟨by decide, by decide, by decide, by decide⟩
  · exact ⟨by decide, by decide, by decide, by decide⟩
  · exact ⟨by decide, by decide, by decide, by decide⟩
  · obtain ⟨h1, h2⟩ := isDigitChar_range h
    refine ⟨by omega, ?_, ?_, ?_⟩
    · exact char_ne_of_toNat_ne (by intro he; rw [show (']' : Char).toNat = 93 from rfl] at he; omega)
    · exact char_ne_of_toNat_ne (by intro he; rw [show (rbrace : Char).toNat = 125 from rfl] at he; omega)
    · exact char_ne_of_toNat_ne (by intro he; rw [show ((',') : Char).toNat = 44 from rfl] at he; omega)

/-- The empty remainder is a safe residual. -/
theorem okRest_nil : okRest [] := fun c h => absurd h (by simp)

/-- A residual headed by a known safe character. -/
theorem okRest_cons {c : Char} {rest : List Char} (h1 : isDigitChar c = false)
    (h2 : c ≠ '.') (h3 : c ≠ 'e') (h4 : c ≠ 'E') : okRest (c :: rest) := by
  intro d hd
  simp only [List.head?_cons, Option.some.injEq] at hd
  subst hd
  exact ⟨h1, h2, h3, h4⟩

/-- The residual after an array element is safe (`,` or `]`). -/
theorem okRest_arrTail (xs : List JVal) (rest : List Char) :
    okRest (dumpsArr xs ++ ']' :: rest) := by
  cases xs with
  | nil => exact okRest_cons (by decide) (by decide) (by decide) (by decide)
  | cons x t => exact okRest_cons (by decide) (by decide) (by decide) (by decide)

/-- The residual after an object value is safe (`,` or the brace). -/
theorem okRest_objTail (kvs : List (String × JVal)) (rest : List Char) :
    okRest (dumpsObj kvs ++ rbrace :: rest) := by
  match kvs with
  | [] => exact okRest_cons (by decide) (by decide) (by decide) (by decide)
  | (k, v) :: t => exact okRest_cons (by decide) (by decide) (by decide) (by decide)

mutual

/-- The fuel bound of a value is within one of its printed length. -/
theorem jweight_le : ∀ v : JVal, jweight v ≤ (dumpsChars v).length + 1
  | .jnull => by simp [jweight, dumpsChars]
  | .jbool true => by simp [jweight, dumpsChars]
  | .jbool false => by simp [jweight, dumpsChars]
  | .jint n => by simp [jweight]
  | .jstr s => by simp [jweight]
  | .jarr [] => by simp [jweight, dumpsChars]
  | .jarr (x :: xs) => by
    have h1 := jweight_le x
    have h2 := wArr_le xs
    have hmax : max (jweight x) (wArr xs) ≤
        (dumpsChars x).length + (dumpsArr xs).length + 2 := by
      apply Nat.max_le.mpr
      omega
    simp only [jweight, dumpsChars, List.length_cons, List.length_append,
      List.length_singleton]
    omega
  | .jobj [] => by simp [jweight, dumpsChars]
  | .jobj ((k, v) :: kvs) => by
    have h1 := jweight_le v
    have h2 := wObj_le kvs
    have hmax : max (jweight v) (wObj kvs) ≤
        (dumpsChars v).length + (dumpsObj kvs).length + 2 := by
      apply Nat.max_le.mpr
      omega
    simp only [jweight, dumpsChars, List.length_cons, List.length_append,
      List.length_singleton]
    omega

/-- The fuel bound of an array tail is within two of its printed length. -/
theorem wArr_le : ∀ xs : List JVal, wArr xs ≤ (dumpsArr xs).length + 2
  | [] => by simp [wArr, dumpsArr]
  | x :: xs => by
    have h1 := jweight_le x
    have h2 := wArr_le xs
    have hmax : max (jweight x) (wArr xs) ≤
        (dumpsChars x).length + (dumpsArr xs).length + 2 := by
      apply Nat.max_le.mpr
      omega
    simp only [wArr, dumpsArr, List.length_cons, List.length_append]
    omega

/-- The fuel bound of an object tail is within two of its printed length. -/
theorem wObj_le : ∀ kvs : List (String × JVal), wObj kvs ≤ (dumpsObj kvs).length + 2
  | [] => by simp [wObj, dumpsObj]
  | (k, v) :: kvs => by
    have h1 := jweight_le v
    have h2 := wObj_le kvs
    have hmax : max (jweight v) (wObj kvs) ≤
        (dumpsChars v).length + (dumpsObj kvs).length + 2 := by
      apply Nat.max_le.mpr
      omega
    simp only [wObj, dumpsObj, List.length_cons, List.length_append,
      List.length_singleton]
    omega

end

/-- Every fuel weight is positive. -/
theorem jweight_pos : ∀ v : JVal, 1 ≤ jweight v
  | .jnull => by simp [jweight]
  | .jbool true => by simp [jweight]
  | .jbool false => by simp [jweight]
  | .jint _ => by simp [jweight]
  | .jstr _ => by simp [jweight]
  | .jarr [] => by simp [jweight]
  | .jarr (x :: xs) => by simp [jweight]
  | .jobj [] => by simp [jweight]
  | .jobj ((k, v) :: kvs) => by simp [jweight]

/-- The array-tail weight is positive. -/
theorem wArr_pos : ∀ xs : List JVal, 1 ≤ wArr xs
  | [] => by simp [wArr]
  | x :: xs => by simp [wArr]

/-- The object-tail weight is positive. -/
theorem wObj_pos : ∀ kvs : List (String × JVal), 1 ≤ wObj kvs
  | [] => by simp [wObj]
  | (k, v) :: kvs => by simp [wObj]

/-- A `String` is its character list. -/
theorem string_mk_data : ∀ s : String, String.mk s.data = s
  | ⟨_⟩ => rfl

/-- Whitespace skipping never moves past serialized output. -/
theorem skipWs_dumps_append (v : JVal) (A : List Char) :
    skipWs (dumpsChars v ++ A) = dumpsChars v ++ A := by
  obtain ⟨c0, t0, hx, hdisp⟩ := dumpsChars_head v
  rw [hx, List.cons_append]
  exact skipWs_cons_of_not_ws (isJsonWs_eq_false (dumps_head_facts hdisp).1)

/-- One-step reduction of the value scanner on a string opener. -/
theorem parseVal_str_red (f : Nat) (T : List Char) :
    parseVal (f + 1) ('"' :: T) =
      (match scanString (T.length + 1) T with
       | Except.error msg => Except.error msg
       | Except.ok (cs, r) => Except.ok (.jstr (String.mk cs), r)) := rfl

/-- One-step reduction of the value scanner on an array opener. -/
theorem parseVal_arr_red (f : Nat) (T : List Char) :
    parseVal (f + 1) ('[' :: T) =
      (match skipWs T with
       | [] => Except.error "Expecting value"
       | c2 :: r2 =>
         if c2 = ']' then Except.ok (.jarr [], r2)
         else
           match parseVal f (c2 :: r2) with
           | Except.error msg => Except.error msg
           | Except.ok (v, r1) =>
             match parseArrTail f r1 with
             | Except.error msg => Except.error msg
             | Except.ok (vs, r3) => Except.ok (.jarr (v :: vs), r3)) := rfl

/-- One-step reduction of the value scanner on an object opener. -/
theorem parseVal_obj_red (f : Nat) (T : List Char) :
    parseVal (f + 1) (lbrace :: T) =
      (match skipWs T with
       | c2 :: r2 =>
         if c2 = rbrace then Except.ok (.jobj [], r2)
         else if c2 = '"' then
           match scanString (r2.length + 1) r2 with
           | Except.error msg => Except.error msg
           | Except.ok (k, r3) =>
             match skipWs r3 with
             | c3 :: r4 =>
               if c3 = ':' then
                 match parseVal f (skipWs r4) with
                 | Except.error msg => Except.error msg
                 | Except.ok (v, r5) =>
                   match parseObjTail f r5 with
                   | Except.error msg => Except.error msg
                   | Except.ok (kvs, r6) =>
                     Except.ok (.jobj ((String.mk k, v) :: kvs), r6)
               else Except.error "Expecting ':' delimiter"
             | [] => Except.error "Expecting ':' delimiter"
         else Except.error "Expecting property name enclosed in double quotes"
       | [] => Except.error "Expecting property name enclosed in double quotes") := rfl

/-- One-step reduction of the value scanner on a numeric literal. -/
theorem parseVal_num_red (f : Nat) (c : Char) (T : List Char)
    (h1 : ¬c = '"') (h2 : ¬c = '[') (h3 : ¬c = lbrace) (h4 : ¬c = 'n') (h5 : ¬c = 't')
    (h6 : ¬c = 'f') (h7 : c = '-' ∨ isDigitChar c = true) :
    parseVal (f + 1) (c :: T) =
      (match (if c = '-' then ((true : Bool), T) else ((false : Bool), c :: T)) with
       | (neg, s1) =>
         match takeDigits s1 with
         | ([], _) => Except.error "Expecting value"
         | (ds, s2) =>
           match s2 with
           | c2 :: _ =>
             if c2 = '.' ∨ c2 = 'e' ∨ c2 = 'E' then
               Except.error "float literal is outside the model"
             else
               Except.ok (.jint (if neg then -(digitsToNat 0 ds : Int)
                 else (digitsToNat 0 ds : Int)), s2)
           | [] =>
             Except.ok (.jint (if neg then -(digitsToNat 0 ds : Int)
               else (digitsToNat 0 ds : Int)), [])) := by
  simp only [parseVal]
  rw [if_neg h1, if_neg h2, if_neg h3, if_neg h4, if_neg h5, if_neg h6, if_pos h7]

/-- One-step reduction of the array-tail scanner. -/
theorem parseArrTail_red (f : Nat) (S : List Char) (c : Char) (r : List Char)
    (hS : skipWs S = c :: r) :
    parseArrTail (f + 1) S =
      (if c = ']' then Except.ok ([], r)
       else if c = ',' then
         match parseVal f (skipWs r) with
         | Except.error msg => Except.error msg
         | Except.ok (v, r1) =>
           match parseArrTail f r1 with
           | Except.error msg => Except.error msg
           | Except.ok (vs, r2) => Except.ok (v :: vs, r2)
       else Except.error "Expecting ',' delimiter") := by
  simp only [parseArrTail]
  rw [hS]

/-- One-step reduction of the object-tail scanner. -/
theorem parseObjTail_red (f : Nat) (S : List Char) (c : Char) (r : List Char)
    (hS : skipWs S = c :: r) :
    parseObjTail (f + 1) S =
      (if c = rbrace then Except.ok ([], r)
       else if c = ',' then
         match skipWs r with
         | c2 :: r2 =>
           if c2 = '"' then
             match scanString (r2.length + 1) r2 with
             | Except.error msg => Except.error msg
             | Except.ok (k, r3) =>
               match skipWs r3 with
               | c3 :: r4 =>
                 if c3 = ':' then
                   match parseVal f (skipWs r4) with
                   | Except.error msg => Except.error msg
                   | Except.ok (v, r5) =>
                     match parseObjTail f r5 with
                     | Except.error msg => Except.error msg
                     | Except.ok (kvs, r6) => Except.ok ((String.mk k, v) :: kvs, r6)
                 else Except.error "Expecting ':' delimiter"
               | [] => Except.error "Expecting ':' delimiter"
           else Except.error "Expecting property name enclosed in double quotes"
         | [] => Except.error "Expecting property name enclosed in double quotes"
       else Except.error "Expecting ',' delimiter") := by
  simp only [parseObjTail]
  rw [hS]

/-- Main decoder/encoder round trip, by induction on fuel: with enough
fuel, scanning serialized output recovers the value (and, for the tail
scanners, the element lists) exactly, leaving a safe residual intact. -/
theorem parse_dumps_main : ∀ fuel : Nat,
    (∀ (v : JVal) (rest : List Char), jweight v ≤ fuel → okRest rest →
       parseVal fuel (dumpsChars v ++ rest) = .ok (v, rest)) ∧
    (∀ (xs : List JVal) (rest : List Char), wArr xs ≤ fuel →
       parseArrTail fuel (dumpsArr xs ++ ']' :: rest) = .ok (xs, rest)) ∧
    (∀ (kvs : List (String × JVal)) (rest : List Char), wObj kvs ≤ fuel →
       parseObjTail fuel (dumpsObj kvs ++ rbrace :: rest) = .ok (kvs, rest)) := by
  intro fuel
  induction fuel with
  | zero =>
    refine ⟨fun v rest hw _ => absurd hw ?_, fun xs rest hw => absurd hw ?_,
            fun kvs rest hw => absurd hw ?_⟩
    · have := jweight_pos v; omega
    · have := wArr_pos xs; omega
    · have := wObj_pos kvs; omega
  | succ f ih =>
    obtain ⟨ihV, ihA, ihO⟩ := ih
    refine ⟨?_, ?_, ?_⟩
    · -- the value scanner
      intro v rest hw hrest
      cases v with
      | jnull => rfl
      | jbool b => cases b with
        | true => rfl
        | false => rfl
      | jstr s =>
        have hl : dumpsChars (.jstr s) ++ rest = '"' :: (escapeStr s.data ++ '"' :: rest) := by
          simp [dumpsChars]
        rw [hl, parseVal_str_red]
        have hlen : s.data.length < (escapeStr s.data ++ '"' :: rest).length + 1 := by
          simp only [List.length_append, List.length_cons]
          have := escapeStr_length s.data
          omega
        rw [scanString_escape s.data rest _ hlen]
      | jint n =>
        show parseVal (f + 1) (intChars n ++ rest) = Except.ok (.jint n, rest)
        unfold intChars
        by_cases hn : n < 0
        · rw [if_pos hn]
          obtain ⟨hne, hdig, hval⟩ := natChars_spec n.natAbs
          rw [List.cons_append,
              parseVal_num_red f '-' (natChars n.natAbs ++ rest) (by decide) (by decide)
                (by decide) (by decide) (by decide) (by decide) (Or.inl rfl),
              if_pos rfl]
          dsimp only
          rw [takeDigits_append (natChars n.natAbs) rest hdig
                (fun c hc => (hrest c hc).1)]
          cases hnc : natChars n.natAbs with
          | nil => exact absurd hnc hne
          | cons c0 t0 =>
            dsimp only
            have hv : digitsToNat 0 (c0 :: t0) = n.natAbs := by
              rw [← hnc, hval 0, Nat.zero_mul, Nat.zero_add]
            have hint : -((n.natAbs : Nat) : Int) = n := by omega
            cases rest with
            | nil =>
              dsimp only
              rw [if_pos (show (true : Bool) = true from rfl), hv, hint]
            | cons c2 t2 =>
              obtain ⟨_, hp, he, hE⟩ := hrest c2 rfl
              dsimp only
              rw [if_neg (show ¬(c2 = '.' ∨ c2 = 'e' ∨ c2 = 'E') from fun hor =>
                    hor.elim (fun h => hp h)
                      (fun hor2 => hor2.elim (fun h => he h) (fun h => hE h)))]
              rw [if_pos (show (true : Bool) = true from rfl), hv, hint]
        · rw [if_neg hn]
          obtain ⟨hne, hdig, hval⟩ := natChars_spec n.toNat
          cases hnc : natChars n.toNat with
          | nil => exact absurd hnc hne
          | cons c0 t0 =>
            have hd0 : isDigitChar c0 = true := hdig c0 (hnc ▸ List.mem_cons_self c0 t0)
            obtain ⟨hr1, hr2⟩ := isDigitChar_range hd0
            rw [List.cons_append,
                parseVal_num_red f c0 (t0 ++ rest)
                  (char_ne_of_toNat_ne (by rw [show ('"' : Char).toNat = 34 from rfl]; omega))
                  (char_ne_of_toNat_ne (by rw [show ('[' : Char).toNat = 91 from rfl]; omega))
                  (char_ne_of_toNat_ne (by rw [show (lbrace : Char).toNat = 123 from rfl]; omega))
                  (char_ne_of_toNat_ne (by rw [show ('n' : Char).toNat = 110 from rfl]; omega))
                  (char_ne_of_toNat_ne (by rw [show ('t' : Char).toNat = 116 from rfl]; omega))
                  (char_ne_of_toNat_ne (by rw [show ('f' : Char).toNat = 102 from rfl]; omega))
                  (Or.inr hd0),
                if_neg (char_ne_of_toNat_ne
                  (by rw [show ('-' : Char).toNat = 45 from rfl]; omega))]
            dsimp only
            rw [← List.cons_append, ← hnc,
                takeDigits_append (natChars n.toNat) rest hdig
                  (fun c hc => (hrest c hc).1), hnc]
            dsimp only
            have hv : digitsToNat 0 (c0 :: t0) = n.toNat := by
              rw [← hnc, hval 0, Nat.zero_mul, Nat.zero_add]
            have hint : ((n.toNat : Int)) = n := Int.toNat_of_nonneg (by omega)
            cases rest with
            | nil =>
              dsimp only
              rw [if_neg (show ¬((false : Bool) = true) from Bool.false_ne_true), hv, hint]
            | cons c2 t2 =>
              obtain ⟨_, hp, he, hE⟩ := hrest c2 rfl
              dsimp only
              rw [if_neg (show ¬(c2 = '.' ∨ c2 = 'e' ∨ c2 = 'E') from fun hor =>
                    hor.elim (fun h => hp h)
                      (fun hor2 => hor2.elim (fun h => he h) (fun h => hE h)))]
              rw [if_neg (show ¬((false : Bool) = true) from Bool.false_ne_true), hv, hint]
      | jarr xs =>
        cases xs with
        | nil => rfl
        | cons x xs2 =>
          have hl : dumpsChars (.jarr (x :: xs2)) ++ rest =
              '[' :: (dumpsChars x ++ (dumpsArr xs2 ++ ']' :: rest)) := by
            simp [dumpsChars]
          rw [hl, parseVal_arr_red, skipWs_dumps_append x (dumpsArr xs2 ++ ']' :: rest)]
          obtain ⟨c0, t0, hx, hdisp⟩ := dumpsChars_head x
          obtain ⟨h33, hnrb, _, _⟩ := dumps_head_facts hdisp
          rw [hx, List.cons_append]
          dsimp only
          rw [if_neg hnrb, ← List.cons_append, ← hx]
          have hx1 := Nat.le_max_left (jweight x) (wArr xs2)
          have hx2 := Nat.le_max_right (jweight x) (wArr xs2)
          simp only [jweight] at hw
          rw [ihV x (dumpsArr xs2 ++ ']' :: rest) (by omega) (okRest_arrTail xs2 rest)]
          dsimp only
          rw [ihA xs2 rest (by omega)]
      | jobj kvs =>
        match kvs with
        | [] => rfl
        | (k, v) :: kvs2 =>
          have hl : dumpsChars (.jobj ((k, v) :: kvs2)) ++ rest =
              lbrace :: '"' :: (escapeStr k.data ++ ('"' :: ':' :: ' ' ::
                (dumpsChars v ++ (dumpsObj kvs2 ++ rbrace :: rest)))) := by
            simp [dumpsChars]
          rw [hl, parseVal_obj_red,
              skipWs_cons_of_not_ws (show isJsonWs '"' = false by decide)]
          dsimp only
          rw [if_neg (show ¬('"' : Char) = rbrace by decide), if_pos rfl]
          have hlen : k.data.length <
              (escapeStr k.data ++ ('"' :: ':' :: ' ' ::
                (dumpsChars v ++ (dumpsObj kvs2 ++ rbrace :: rest)))).length + 1 := by
            simp only [List.length_append, List.length_cons]
            have := escapeStr_length k.data
            omega
          rw [show escapeStr k.data ++ ('"' :: ':' :: ' ' ::
                (dumpsChars v ++ (dumpsObj kvs2 ++ rbrace :: rest))) =
              escapeStr k.data ++ '"' :: (':' :: ' ' ::
                (dumpsChars v ++ (dumpsObj kvs2 ++ rbrace :: rest))) from rfl,
              scanString_escape k.data _ _ (by
                simp only [List.length_append, List.length_cons]
                have := escapeStr_length k.data
                omega)]
          dsimp only
          rw [skipWs_cons_of_not_ws (show isJsonWs ':' = false by decide)]
          dsimp only
          rw [if_pos rfl,
              show skipWs (' ' :: (dumpsChars v ++ (dumpsObj kvs2 ++ rbrace :: rest))) =
                skipWs (dumpsChars v ++ (dumpsObj kvs2 ++ rbrace :: rest)) from rfl,
              skipWs_dumps_append v (dumpsObj kvs2 ++ rbrace :: rest)]
          have hx1 := Nat.le_max_left (jweight v) (wObj kvs2)
          have hx2 := Nat.le_max_right (jweight v) (wObj kvs2)
          simp only [jweight] at hw
          rw [ihV v (dumpsObj kvs2 ++ rbrace :: rest) (by omega) (okRest_objTail kvs2 rest)]
          dsimp only
          rw [ihO kvs2 rest (by omega)]
    · -- the array-tail scanner
      intro xs rest hw
      cases xs with
      | nil => rfl
      | cons x xs2 =>
        have hl : dumpsArr (x :: xs2) ++ ']' :: rest =
            ',' :: ' ' :: (dumpsChars x ++ (dumpsArr xs2 ++ ']' :: rest)) := by
          simp [dumpsArr]
        rw [hl,
            parseArrTail_red f _ ','
              (' ' :: (dumpsChars x ++ (dumpsArr xs2 ++ ']' :: rest)))
              (skipWs_cons_of_not_ws (by decide)),
            if_neg (show ¬(',' : Char) = ']' by decide), if_pos rfl,
            show skipWs (' ' :: (dumpsChars x ++ (dumpsArr xs2 ++ ']' :: rest))) =
              skipWs (dumpsChars x ++ (dumpsArr xs2 ++ ']' :: rest)) from rfl,
            skipWs_dumps_append x (dumpsArr xs2 ++ ']' :: rest)]
        have hx1 := Nat.le_max_left (jweight x) (wArr xs2)
        have hx2 := Nat.le_max_right (jweight x) (wArr xs2)
        simp only [wArr] at hw
        rw [ihV x (dumpsArr xs2 ++ ']' :: rest) (by omega) (okRest_arrTail xs2 rest)]
        dsimp only
        rw [ihA xs2 rest (by omega)]
    · -- the object-tail scanner
      intro kvs rest hw
      match kvs with
      | [] => rfl
      | (k, v) :: kvs2 =>
        have hl : dumpsObj ((k, v) :: kvs2) ++ rbrace :: rest =
            ',' :: ' ' :: '"' :: (escapeStr k.data ++ ('"' :: ':' :: ' ' ::
              (dumpsChars v ++ (dumpsObj kvs2 ++ rbrace :: rest)))) := by
          simp [dumpsObj]
        rw [hl,
            parseObjTail_red f _ ','
              (' ' :: '"' :: (escapeStr k.data ++ ('"' :: ':' :: ' ' ::
                (dumpsChars v ++ (dumpsObj kvs2 ++ rbrace :: rest)))))
              (skipWs_cons_of_not_ws (by decide)),
            if_neg (show ¬(',' : Char) = rbrace by decide), if_pos rfl,
            show skipWs (' ' :: '"' :: (escapeStr k.data ++ ('"' :: ':' :: ' ' ::
                (dumpsChars v ++ (dumpsObj kvs2 ++ rbrace :: rest))))) =
              '"' :: (escapeStr k.data ++ ('"' :: ':' :: ' ' ::
                (dumpsChars v ++ (dumpsObj kvs2 ++ rbrace :: rest)))) from by
              rw [show skipWs (' ' :: '"' :: (escapeStr k.data ++ ('"' :: ':' :: ' ' ::
                  (dumpsChars v ++ (dumpsObj kvs2 ++ rbrace :: rest))))) =
                skipWs ('"' :: (escapeStr k.data ++ ('"' :: ':' :: ' ' ::
                  (dumpsChars v ++ (dumpsObj kvs2 ++ rbrace :: rest))))) from rfl]
              exact skipWs_cons_of_not_ws (by decide)]
        dsimp only
        rw [if_pos rfl,
            show escapeStr k.data ++ ('"' :: ':' :: ' ' ::
                (dumpsChars v ++ (dumpsObj kvs2 ++ rbrace :: rest))) =
              escapeStr k.data ++ '"' :: (':' :: ' ' ::
                (dumpsChars v ++ (dumpsObj kvs2 ++ rbrace :: rest))) from rfl,
            scanString_escape k.data _ _ (by
              simp only [List.length_append, List.length_cons]
              have := escapeStr_length k.data
              omega)]
        dsimp only
        rw [skipWs_cons_of_not_ws (show isJsonWs ':' = false by decide)]
        dsimp only
        rw [if_pos rfl,
            show skipWs (' ' :: (dumpsChars v ++ (dumpsObj kvs2 ++ rbrace :: rest))) =
              skipWs (dumpsChars v ++ (dumpsObj kvs2 ++ rbrace :: rest)) from rfl,
            skipWs_dumps_append v (dumpsObj kvs2 ++ rbrace :: rest)]
        have hx1 := Nat.le_max_left (jweight v) (wObj kvs2)
        have hx2 := Nat.le_max_right (jweight v) (wObj kvs2)
        simp only [wObj] at hw
        rw [ihV v (dumpsObj kvs2 ++ rbrace :: rest) (by omega) (okRest_objTail kvs2 rest)]
        dsimp only
        rw [ihO kvs2 rest (by omega)]

/-- `json.loads` is a left inverse of `json.dumps` on the modelled
value space. -/
theorem loads_dumps (v : JVal) : loads (dumps v) = .ok v := by
  unfold loads dumps
  dsimp only
  have hskip : skipWs (dumpsChars v) = dumpsChars v := by
    have h := skipWs_dumps_append v []
    simpa using h
  rw [hskip]
  have hfuel : jweight v ≤ (dumpsChars v).length + 1 := jweight_le v
  have h := (parse_dumps_main ((dumpsChars v).length + 1)).1 v [] hfuel okRest_nil
  rw [List.append_nil] at h
  rw [h]
  rfl

/-- Binding on a successful `Except` computation. -/
theorem except_bind_ok {ε α β : Type} (a : α) (f : α → Except ε β) :
    (Except.ok a >>= f) = f a := rfl

/-- Binding on a failed `Except` computation. -/
theorem except_bind_error {ε α β : Type} (e : ε) (f : α → Except ε β) :
    ((Except.error e : Except ε α) >>= f) = .error e := rfl

/-- A value scanned from input that opens with `[` is an array. -/
theorem parseVal_bracket : ∀ (fuel : Nat) (t : List Char) (v : JVal) (r : List Char),
    parseVal fuel ('[' :: t) = .ok (v, r) → ∃ xs, v = .jarr xs := by
  intro fuel t v r h
  cases fuel with
  | zero => exact absurd h (by simp [parseVal])
  | succ f =>
    rw [parseVal_arr_red] at h
    split at h
    · exact absurd h (by simp)
    · split at h
      · rw [Except.ok.injEq, Prod.mk.injEq] at h
        exact ⟨_, h.1.symm⟩
      · split at h
        · exact absurd h (by simp)
        · split at h
          · exact absurd h (by simp)
          · rw [Except.ok.injEq, Prod.mk.injEq] at h
            exact ⟨_, h.1.symm⟩

/-- A successful `json.loads` of a string that starts with `[` yields an
array value. -/
theorem loads_startsWith_bracket {s : String} {v : JVal}
    (hb : startsWithBracket s = true) (hok : loads s = .ok v) : ∃ xs, v = .jarr xs := by
  unfold startsWithBracket at hb
  cases hsd : s.data with
  | nil => rw [hsd] at hb; exact absurd hb (by simp)
  | cons c t =>
    rw [hsd] at hb
    dsimp only at hb
    rw [decide_eq_true_iff] at hb
    subst hb
    unfold loads at hok
    rw [hsd, skipWs_cons_of_not_ws (by decide)] at hok
    dsimp only at hok
    cases hp : parseVal (('[' :: t).length + 1) ('[' :: t) with
    | error e => rw [hp] at hok; exact absurd hok (by simp)
    | ok p =>
      obtain ⟨v0, r⟩ := p
      rw [hp] at hok
      dsimp only at hok
      have hv : v = v0 := by
        split at hok
        · rw [Except.ok.injEq] at hok; exact hok.symm
        · exact absurd hok (by simp)
      subst hv
      exact parseVal_bracket _ _ _ _ hp

/-- The serialization of an array is a `[`-prefixed string. -/
theorem startsWithBracket_dumps_arr (xs : List JVal) :
    startsWithBracket (dumps (.jarr xs)) = true := by
  cases xs with
  | nil => rfl
  | cons x t => rfl

/-- The serialization of a mapping starts with the brace, not `[`. -/
theorem startsWithBracket_dumps_obj (kvs : List (String × JVal)) :
    startsWithBracket (dumps (.jobj kvs)) = false := by
  match kvs with
  | [] => rfl
  | (k, v) :: t => rfl

/-- Unfolding lemma for the string case of `parseCell`. -/
theorem parseCell_jstr_red (s : String) : parseCell (.jstr s) =
    (if startsWithBracket s = true then loads s else .ok (.jstr s)) := rfl

/-- Round trip for list cells: decode after encode is the identity. -/
theorem parseCell_serializeCell_arr (xs : List JVal) :
    parseCell (serializeCell (.jarr xs)) = .ok (.jarr xs) := by
  show parseCell (.jstr (dumps (.jarr xs))) = _
  rw [parseCell_jstr_red, if_pos (startsWithBracket_dumps_arr xs)]
  exact loads_dumps (.jarr xs)

/-- A mapping cell is serialized to a brace-prefixed string which decode
passes through unchanged. -/
theorem parseCell_serializeCell_obj (kvs : List (String × JVal)) :
    parseCell (serializeCell (.jobj kvs)) = .ok (.jstr (dumps (.jobj kvs))) := by
  show parseCell (.jstr (dumps (.jobj kvs))) = _
  rw [parseCell_jstr_red,
      if_neg (by rw [startsWithBracket_dumps_obj]; exact Bool.false_ne_true)]

/-- Decoding a cell twice is the same as decoding it once. -/
theorem parseCell_ok_idem {x y : JVal} (h : parseCell x = .ok y) : parseCell y = .ok y := by
  cases x with
  | jstr s =>
    rw [parseCell_jstr_red] at h
    by_cases hb : startsWithBracket s = true
    · rw [if_pos hb] at h
      obtain ⟨xs, rfl⟩ := loads_startsWith_bracket hb h
      rfl
    · rw [if_neg hb] at h
      rw [Except.ok.injEq] at h
      subst h
      rw [parseCell_jstr_red, if_neg hb]
  | jnull => rw [show parseCell .jnull = .ok .jnull from rfl, Except.ok.injEq] at h; subst h; rfl
  | jbool b => rw [show parseCell (.jbool b) = .ok (.jbool b) from rfl, Except.ok.injEq] at h; subst h; rfl
  | jint n => rw [show parseCell (.jint n) = .ok (.jint n) from rfl, Except.ok.injEq] at h; subst h; rfl
  | jarr xs => rw [show parseCell (.jarr xs) = .ok (.jarr xs) from rfl, Except.ok.injEq] at h; subst h; rfl
  | jobj kvs => rw [show parseCell (.jobj kvs) = .ok (.jobj kvs) from rfl, Except.ok.injEq] at h; subst h; rfl

/-- Decoding a successfully decoded column again is the identity. -/
theorem mapM_parseCell_idem : ∀ (cells cells2 : List JVal),
    cells.mapM parseCell = .ok cells2 → cells2.mapM parseCell = .ok cells2 := by
  intro cells
  induction cells with
  | nil =>
    intro cells2 h
    simp only [List.mapM_nil] at h
    rw [show (pure [] : Except String (List JVal)) = .ok [] from rfl, Except.ok.injEq] at h
    subst h
    rfl
  | cons c t ih =>
    intro cells2 h
    rw [List.mapM_cons] at h
    cases hc : parseCell c with
    | error e => rw [hc, except_bind_error] at h; exact absurd h (by simp)
    | ok y =>
      rw [hc, except_bind_ok] at h
      cases ht : t.mapM parseCell with
      | error e => rw [ht, except_bind_error] at h; exact absurd h (by simp)
      | ok t2 =>
        rw [ht, except_bind_ok] at h
        rw [show (pure (y :: t2) : Except String (List JVal)) = .ok (y :: t2) from rfl,
            Except.ok.injEq] at h
        subst h
        rw [List.mapM_cons, parseCell_ok_idem hc, except_bind_ok, ih t2 ht, except_bind_ok]
        rfl

/-- After updating a column, looking it up yields the new cells. -/
theorem getCol_updateCol_self {df : DF} {c : String} {cells : List JVal} (x : List JVal)
    (h : getCol df c = some cells) : getCol (updateCol df c x) c = some x := by
  induction df with
  | nil => exact absurd h (by simp [getCol])
  | cons e t ih =>
    simp only [getCol, updateCol, List.map_cons, List.find?_cons] at h ih ⊢
    by_cases hbeq : e.1 == c
    · simp only [hbeq, if_true]
      simp only [Option.map_some']
    · simp only [hbeq, Bool.false_eq_true, if_false] at h ⊢
      exact ih h

/-- Updating a column with the cells every like-named entry already
holds is the identity. -/
theorem updateCol_eq_self {df : DF} {c : String} {x : List JVal}
    (h : ∀ e ∈ df, e.1 = c → e.2 = x) : updateCol df c x = df := by
  induction df with
  | nil => rfl
  | cons e t ih =>
    show (if (e.1 == c) = true then (e.1, x) else e) :: updateCol t c x = e :: t
    rw [ih (fun e2 hm hc => h e2 (List.mem_cons_of_mem e hm) hc)]
    by_cases hbeq : (e.1 == c) = true
    · have he : e.1 = c := by
        have hx := hbeq
        simp only [beq_iff_eq] at hx
        exact hx
      have he2 : e.2 = x := h e (List.mem_cons_self e t) he
      rw [if_pos hbeq, ← he2]
    · rw [if_neg hbeq]

/-- Every like-named entry of an updated column holds the new cells. -/
theorem mem_updateCol_eq {df : DF} {c : String} {x : List JVal} {e : String × List JVal}
    (hm : e ∈ updateCol df c x) (hc : e.1 = c) : e.2 = x := by
  obtain ⟨e0, hm0, hf⟩ := List.mem_map.mp hm
  by_cases hbeq : e0.1 == c
  · rw [if_pos hbeq] at hf
    rw [← hf]
  · rw [if_neg hbeq] at hf
    subst hf
    rw [hc] at hbeq
    exact absurd (by simp : (c == c) = true) hbeq

/-- Parsing leaves entries of undeclared columns untouched, position by
position. -/
theorem parse_preserves_entries :
    ∀ (cols : List String) (df df2 : DF), parse_json_columns df cols = .ok df2 →
      ∀ (i : Nat) (e : String × List JVal), df.get? i = some e → e.1 ∉ cols →
        df2.get? i = some e := by
  intro cols
  induction cols with
  | nil =>
    intro df df2 h i e hi _
    simp only [parse_json_columns, Except.ok.injEq] at h
    subst h
    exact hi
  | cons c cs ih =>
    intro df df2 h i e hi hnot
    simp only [parse_json_columns] at h
    split at h
    · rename_i cells hget
      split at h
      · exact absurd h (by simp)
      · rename_i cells2 hmap
        have hne : e.1 ≠ c := fun hx => hnot (hx ▸ List.mem_cons_self c cs)
        have hi2 : (updateCol df c cells2).get? i = some e := by
          simp only [updateCol, List.get?_map, hi, Option.map_some']
          rw [if_neg (beq_false_of_ne hne ▸ Bool.false_ne_true)]
        exact ih _ df2 h i e hi2 (fun hm => hnot (List.mem_cons_of_mem c hm))
    · exact ih df df2 h i e hi (fun hm => hnot (List.mem_cons_of_mem c hm))

/-- After a successful parse, every declared column that is present
holds decode-fixed cells, shared by every like-named entry. -/
theorem parse_good_after :
    ∀ (cols : List String) (df df2 : DF), parse_json_columns df cols = .ok df2 →
      ∀ c ∈ cols, ∀ cells, getCol df2 c = some cells →
        cells.mapM parseCell = .ok cells ∧ ∀ e ∈ df2, e.1 = c → e.2 = cells := by
  intro cols
  induction cols with
  | nil => intro df df2 h c hc; exact absurd hc (List.not_mem_nil c)
  | cons c0 cs ih =>
    intro df df2 h c hc cells hcells
    simp only [parse_json_columns] at h
    split at h
    · rename_i cells0 hget
      split at h
      · exact absurd h (by simp)
      · rename_i cells2 hmap
        rcases List.mem_cons.mp hc with hc0 | hcs
        · subst hc0
          by_cases hmem : c ∈ cs
          · exact ih _ df2 h c hmem cells hcells
          · -- the column is not touched again
            have hframe := (parse_json_columns_frame cs _ df2 h).2 c hmem
            have hget1 : getCol (updateCol df c cells2) c = some cells2 :=
              getCol_updateCol_self cells2 hget
            rw [hframe, hget1, Option.some.injEq] at hcells
            subst hcells
            refine ⟨mapM_parseCell_idem _ _ hmap, ?_⟩
            intro e hm hce
            -- entries of df2 named c coincide with those of the updated frame
            obtain ⟨i, hi⟩ := List.mem_iff_get?.mp hm
            have hnames := (parse_json_columns_frame cs _ df2 h).1
            have hlen : df2.length = (updateCol df c cells2).length := by
              have := congrArg List.length hnames
              simpa using this
            cases hi1 : (updateCol df c cells2).get? i with
            | none =>
              rw [List.get?_eq_none] at hi1
              have : df2.get? i = none := by
                rw [List.get?_eq_none]
                omega
              rw [this] at hi
              exact absurd hi (by simp)
            | some e1 =>
              have hname_eq : e.1 = e1.1 := by
                have h1 : (df2.map (fun e => e.1)).get? i = some e.1 := by
                  rw [List.get?_map, hi, Option.map_some']
                have h2 : ((updateCol df c cells2).map (fun e => e.1)).get? i = some e1.1 := by
                  rw [List.get?_map, hi1, Option.map_some']
                rw [hnames, h2, Option.some.injEq] at h1
                exact h1.symm
              have he1c : e1.1 = c := by rw [← hname_eq, hce]
              have hpres := parse_preserves_entries cs _ df2 h i e1 hi1
                (fun hm2 => hmem (he1c ▸ hm2))
              rw [hpres, Option.some.injEq] at hi
              subst hi
              exact mem_updateCol_eq (List.get?_mem hi1) he1c
        · exact ih _ df2 h c hcs cells hcells
    · rename_i hget
      rcases List.mem_cons.mp hc with hc0 | hcs
      · subst hc0
        by_cases hmem : c ∈ cs
        · exact ih df df2 h c hmem cells hcells
        · have hframe := (parse_json_columns_frame cs df df2 h).2 c hmem
          rw [hframe, hget] at hcells
          exact absurd hcells (by simp)
      · exact ih df df2 h c hcs cells hcells

/-- A table whose declared columns are already decode-fixed (uniformly
across duplicate column names) is a fixed point of parsing. -/
theorem parse_fixpoint :
    ∀ (cols : List String) (df : DF),
      (∀ c ∈ cols, ∀ cells, getCol df c = some cells →
        cells.mapM parseCell = .ok cells ∧ ∀ e ∈ df, e.1 = c → e.2 = cells) →
      parse_json_columns df cols = .ok df := by
  intro cols
  induction cols with
  | nil => intro df _; rfl
  | cons c cs ih =>
    intro df h
    simp only [parse_json_columns]
    cases hget : getCol df c with
    | none =>
      exact ih df (fun c2 hc2 => h c2 (List.mem_cons_of_mem c hc2))
    | some cells =>
      obtain ⟨hfix, hall⟩ := h c (List.mem_cons_self c cs) cells hget
      dsimp only
      rw [hfix]
      dsimp only
      rw [updateCol_eq_self hall]
      exact ih df (fun c2 hc2 => h c2 (List.mem_cons_of_mem c hc2))

/-- Parsing an already-parsed table is a no-op. -/
theorem parse_json_columns_idem (df : DF) (cols : List String) (df2 : DF)
    (h : parse_json_columns df cols = .ok df2) :
    parse_json_columns df2 cols = .ok df2 :=
  parse_fixpoint cols df2 (fun c hc cells hcells =>
    parse_good_after cols df df2 h c hc cells hcells)

/-- C3 counterexample: decode is *not* the inverse of encode on mapping
cells — the claim fails at the concrete mapping `{"a": 1}`, whose
serialization is a brace-prefixed string that decode passes through
unchanged instead of decoding back to the mapping. -/
theorem c3_mapping_roundtrip_counterexample :
    parseCell (serializeCell (JVal.jobj [("a", JVal.jint 1)])) ≠
      .ok (JVal.jobj [("a", JVal.jint 1)]) := by
  rw [parseCell_serializeCell_obj]
  intro h
  rw [Except.ok.injEq] at h
  exact JVal.noConfusion h

/-- C3 (amended): the JSON-column coercion pair satisfies: (i) parsing
an already-parsed collection is a no-op; (ii) decode is the exact
inverse of encode for every cell value that is a **list**; (iii) a
**mapping** cell is encoded to its (brace-prefixed) JSON text, which
decode then passes through unchanged rather than decoding back; (iv)
encode passes every scalar through; (v) decode passes through every
scalar that is not a `[`-prefixed string. -/
theorem c3_json_coercion_amended :
    (∀ (df : DF) (cols : List String) (df2 : DF),
       parse_json_columns df cols = .ok df2 → parse_json_columns df2 cols = .ok df2) ∧
    (∀ xs : List JVal, parseCell (serializeCell (JVal.jarr xs)) = .ok (JVal.jarr xs)) ∧
    (∀ kvs : List (String × JVal),
       parseCell (serializeCell (JVal.jobj kvs)) = .ok (JVal.jstr (dumps (JVal.jobj kvs)))) ∧
    (∀ x : JVal, (∀ xs, x ≠ JVal.jarr xs) → (∀ kvs, x ≠ JVal.jobj kvs) →
       serializeCell x = x) ∧
    (∀ x : JVal, (∀ xs, x ≠ JVal.jarr xs) → (∀ kvs, x ≠ JVal.jobj kvs) →
       (∀ s, x = JVal.jstr s → startsWithBracket s = false) → parseCell x = .ok x) := by
  refine ⟨fun df cols df2 h => parse_json_columns_idem df cols df2 h,
    parseCell_serializeCell_arr, parseCell_serializeCell_obj, ?_, ?_⟩
  · intro x h1 h2
    cases x with
    | jnull => rfl
    | jbool b => rfl
    | jint n => rfl
    | jstr s => rfl
    | jarr xs => exact absurd rfl (h1 xs)
    | jobj kvs => exact absurd rfl (h2 kvs)
  · intro x h1 h2 h3
    cases x with
    | jnull => rfl
    | jbool b => rfl
    | jint n => rfl
    | jstr s =>
      rw [parseCell_jstr_red,
          if_neg (by rw [h3 s rfl]; exact Bool.false_ne_true)]
    | jarr xs => exact absurd rfl (h1 xs)
    | jobj kvs => exact absurd rfl (h2 kvs)

/-- Witness for C3 on concrete cells and a concrete two-column table. -/
theorem c3_json_coercion_amended_witness :
    (parse_json_columns dfW ["faculty_pool"] = .ok dfWparsed ∧
     parse_json_columns dfWparsed ["faculty_pool"] = .ok dfWparsed) ∧
    parseCell (serializeCell (JVal.jarr [JVal.jint 1])) = .ok (JVal.jarr [JVal.jint 1]) ∧
    parseCell (serializeCell (JVal.jobj [("a", JVal.jint 1)])) =
      .ok (JVal.jstr (dumps (JVal.jobj [("a", JVal.jint 1)]))) ∧
    serializeCell (JVal.jint 5) = JVal.jint 5 ∧
    parseCell (JVal.jstr "abc") = .ok (JVal.jstr "abc") := by
  have h0 : parse_json_columns dfW ["faculty_pool"] = .ok dfWparsed := rfl
  refine ⟨⟨h0, c3_json_coercion_amended.1 dfW ["faculty_pool"] dfWparsed h0⟩,
    c3_json_coercion_amended.2.1 [JVal.jint 1],
    c3_json_coercion_amended.2.2.1 [("a", JVal.jint 1)],
    c3_json_coercion_amended.2.2.2.1 (JVal.jint 5) (fun xs h => JVal.noConfusion h)
      (fun kvs h => JVal.noConfusion h),
    c3_json_coercion_amended.2.2.2.2 (JVal.jstr "abc") (fun xs h => JVal.noConfusion h)
      (fun kvs h => JVal.noConfusion h)
      (fun s hs => by
        injection hs with h2
        rw [← h2]
        rfl)⟩

end TLinker
